import Mathlib

/-!
Verification of the llm-council backend pipeline (backend/council.py,
backend/council_settings.py, backend/main.py) against its design
specification.  Python strings are modelled as `List Char`, Python dicts
as structures or association lists, numbers as `Int`/`Nat`/`Rat`, and
the model-invocation transport as an explicit function parameter.
Scanning loops are fuel-indexed by the input length so that every
definition is structurally recursive and kernel-evaluable.
-/

/-- Python strings are modelled as lists of characters. -/
abbrev Str : Type := List Char

/-- Coerce a Lean string literal into the embedding's string type. -/
def lit (s : String) : Str := s.toList

/-- Index of the leftmost occurrence of `pat` inside `s`; the basis of
Python's `in`, `str.split` and the `re` module's left-to-right scan. -/
def occursAt? (pat : Str) : Str → Option Nat
  | [] => if pat.isPrefixOf ([] : Str) then some 0 else none
  | c :: rest =>
    if pat.isPrefixOf (c :: rest) then some 0
    else (occursAt? pat rest).map (· + 1)

/-- Python `pat in s`. -/
def containsSub (pat s : Str) : Bool := (occursAt? pat s).isSome

/-- Fuel-indexed worker for `splitOnSub`.  Each recursive step consumes
at least one character of `s` when `sep` is nonempty, so the initial
fuel `s.length + 1` never runs out. -/
def splitOnAux (sep : Str) : Nat → Str → List Str
  | 0, s => [s]
  | n + 1, s =>
    match occursAt? sep s with
    | none => [s]
    | some i => s.take i :: splitOnAux sep n (s.drop (i + sep.length))

/-- Python `s.split(sep)` for a nonempty separator. -/
def splitOnSub (sep s : Str) : List Str := splitOnAux sep (s.length + 1) s

/-- Uppercase ASCII letter test: the `[A-Z]` character class. -/
def isUpperAZ (c : Char) : Bool := 'A' ≤ c && c ≤ 'Z'

/-- ASCII digit test: the `\d` character class (ASCII fragment). -/
def isDigit09 (c : Char) : Bool := '0' ≤ c && c ≤ '9'

/-- Whitespace test: the `\s` character class / `str.strip` default
(ASCII fragment: space, tab, newline, carriage return, vertical tab,
form feed). -/
def isSpaceWS (c : Char) : Bool :=
  c = ' ' || c = '\t' || c = '\n' || c = '\r' || c = Char.ofNat 11 || c = Char.ofNat 12

/-- Literal `"Response "` prefixing every anonymized label. -/
def respLit : Str := lit "Response "

/-- Match the regex `Response [A-Z]` at the start of `s`, returning the
uppercase letter.  The match is 10 characters long. -/
def respLetter? (s : Str) : Option Char :=
  if respLit.isPrefixOf s then
    match s.drop 9 with
    | c :: _ => if isUpperAZ c then some c else none
    | [] => none
  else none

/-- Fuel-indexed worker for `findAllResponse`: the non-overlapping
left-to-right scan of `re.findall(r'Response [A-Z]', s)`.  Each step
consumes at least one character, so fuel `s.length` suffices. -/
def findAllResponseAux : Nat → Str → List Str
  | 0, _ => []
  | n + 1, s =>
    match respLetter? s with
    | some u => (respLit ++ [u]) :: findAllResponseAux n (s.drop 10)
    | none =>
      match s with
      | [] => []
      | _ :: rest => findAllResponseAux n rest

/-- Python `re.findall(r'Response [A-Z]', s)`. -/
def findAllResponse (s : Str) : List Str := findAllResponseAux s.length s

/-- Match the regex `\d+\.\s*Response [A-Z]` at the start of `s`.
Backtracking never helps for this pattern (shortening the greedy `\d+`
leaves a digit where `\.` is required, shortening `\s*` leaves a
whitespace character where `R` is required), so the greedy linear scan
is exact.  Returns the matched text and its length. -/
def numberedAt? (s : Str) : Option (Str × Nat) :=
  let ds := s.takeWhile isDigit09
  if ds.isEmpty then none
  else
    match s.dropWhile isDigit09 with
    | '.' :: s2 =>
      let ws := s2.takeWhile isSpaceWS
      let s3 := s2.dropWhile isSpaceWS
      match respLetter? s3 with
      | some u =>
        some (ds ++ '.' :: (ws ++ respLit ++ [u]), ds.length + 1 + ws.length + 10)
      | none => none
    | _ => none

/-- Fuel-indexed worker for `findAllNumbered`; every step again consumes
at least one character. -/
def findAllNumberedAux : Nat → Str → List Str
  | 0, _ => []
  | n + 1, s =>
    match numberedAt? s with
    | some (m, k) => m :: findAllNumberedAux n (s.drop k)
    | none =>
      match s with
      | [] => []
      | _ :: rest => findAllNumberedAux n rest

/-- Python `re.findall(r'\d+\.\s*Response [A-Z]', s)`. -/
def findAllNumbered (s : Str) : List Str := findAllNumberedAux s.length s

/-- Literal marker `"FINAL RANKING:"`. -/
def finalMarker : Str := lit "FINAL RANKING:"

/-- Embedding of `council.parse_ranking_from_text`: when the marker is
present, split on it and parse `parts[1]` (the text between the first
and the second marker occurrence); inside the region prefer the
numbered-list pattern, keeping the leftmost `Response X` token of each
match (`re.search(...).group()`), and fall back to the bare label scan;
without the marker scan the whole text. -/
def parse_ranking_from_text (ranking_text : Str) : List Str :=
  if containsSub finalMarker ranking_text then
    let parts := splitOnSub finalMarker ranking_text
    if 2 ≤ parts.length then
      let ranking_section := (parts[1]?).getD []
      let numbered_matches := findAllNumbered ranking_section
      if ¬ numbered_matches.isEmpty then
        numbered_matches.map (fun m => (findAllResponse m).headD [])
      else findAllResponse ranking_section
    else findAllResponse ranking_text
  else findAllResponse ranking_text

/-- Region selection exactly as claim C1 words it: all of the text after
the first marker occurrence. -/
def afterFirstMarker (t : Str) : Str :=
  match occursAt? finalMarker t with
  | none => t
  | some i => t.drop (i + finalMarker.length)

/-- Ranking parsing as claim C1 states it (the spec-side definition for
the refinement comparison): the region is the whole text after the first
marker. -/
def claimParseC1 (t : Str) : List Str :=
  if containsSub finalMarker t then
    let region := afterFirstMarker t
    let numbered := findAllNumbered region
    if ¬ numbered.isEmpty then numbered.map (fun m => (findAllResponse m).headD [])
    else findAllResponse region
  else findAllResponse t

/-- Region the code actually parses: the text after the first marker,
truncated at the next occurrence of the marker, if any. -/
def betweenMarkers (t : Str) : Str :=
  match occursAt? finalMarker t with
  | none => t
  | some i =>
    let rest := t.drop (i + finalMarker.length)
    match occursAt? finalMarker rest with
    | none => rest
    | some j => rest.take j

/-- Ranking parsing as amended claim C1 states it: the parsed region
stops at a second marker occurrence. -/
def amendedParseC1 (t : Str) : List Str :=
  if containsSub finalMarker t then
    let region := betweenMarkers t
    let numbered := findAllNumbered region
    if ¬ numbered.isEmpty then numbered.map (fun m => (findAllResponse m).headD [])
    else findAllResponse region
  else findAllResponse t

lemma isPrefixOf_length_le : ∀ p s : Str, p.isPrefixOf s → p.length ≤ s.length := by
  intro p
  induction p with
  | nil => intro s _; simp
  | cons a as ih =>
    intro s h
    cases s with
    | nil => simp [List.isPrefixOf] at h
    | cons b bs =>
      simp only [List.isPrefixOf, Bool.and_eq_true] at h
      have := ih bs h.2
      simpa using Nat.succ_le_succ this

lemma occursAt?_bound {pat s : Str} {i : Nat} (h : occursAt? pat s = some i) :
    i + pat.length ≤ s.length := by
  induction s generalizing i with
  | nil =>
    simp only [occursAt?] at h
    split at h
    · rename_i hp
      have := isPrefixOf_length_le pat [] hp
      simp_all
    · simp at h
  | cons c rest ih =>
    simp only [occursAt?] at h
    split at h
    · rename_i hp
      have hl := isPrefixOf_length_le pat (c :: rest) hp
      simp only [Option.some.injEq] at h
      simp only [List.length_cons] at hl ⊢
      omega
    · cases hrec : occursAt? pat rest with
      | none => simp [hrec] at h
      | some j =>
        simp only [hrec, Option.map_some', Option.some.injEq] at h
        have := ih hrec
        simp only [List.length_cons]
        omega

lemma splitOnAux_ne_nil (sep : Str) (n : Nat) (s : Str) : splitOnAux sep n s ≠ [] := by
  cases n with
  | zero => simp [splitOnAux]
  | succ m =>
    simp only [splitOnAux]
    cases occursAt? sep s <;> simp

/-- Shape of the Python split when the separator occurs: at least two
parts, and `parts[1]` is the text between the first occurrence and the
next one (or the end). -/
lemma splitOnSub_parts (t : Str) {i : Nat} (h : occursAt? finalMarker t = some i) :
    2 ≤ (splitOnSub finalMarker t).length ∧
      ((splitOnSub finalMarker t)[1]?).getD [] = betweenMarkers t := by
  have hlen : i + finalMarker.length ≤ t.length := occursAt?_bound h
  have hml : finalMarker.length = 14 := by decide
  have ht : 1 ≤ t.length := by omega
  unfold splitOnSub
  obtain ⟨m, hm⟩ : ∃ m, t.length = m + 1 := ⟨t.length - 1, by omega⟩
  rw [hm]
  simp only [splitOnAux, h]
  set rest := t.drop (i + finalMarker.length) with hrest
  have hrl : rest.length ≤ m := by
    rw [hrest]
    simp only [List.length_drop]
    omega
  cases m with
  | zero => exact absurd hlen (by omega)
  | succ m' =>
    simp only [splitOnAux]
    cases hr : occursAt? finalMarker rest with
    | none =>
      constructor
      · simp
      · simp [betweenMarkers, h, ← hrest, hr]
    | some j =>
      constructor
      · simp
      · simp [betweenMarkers, h, ← hrest, hr]

/-- The code's parser agrees everywhere with the amended region
description. -/
lemma parse_eq_amended (t : Str) : parse_ranking_from_text t = amendedParseC1 t := by
  unfold parse_ranking_from_text amendedParseC1
  cases hc : containsSub finalMarker t with
  | false => simp [hc]
  | true =>
    simp only [hc, if_true]
    have hocc : ∃ i, occursAt? finalMarker t = some i := by
      unfold containsSub at hc
      cases h : occursAt? finalMarker t with
      | none => rw [h] at hc; simp at hc
      | some i => exact ⟨i, rfl⟩
    obtain ⟨i, hi⟩ := hocc
    obtain ⟨h2, hsec⟩ := splitOnSub_parts t hi
    simp only [h2, if_true, hsec]

/-- C1 counterexample: with two marker occurrences the code parses only
the text between the first and second marker, while the claim's words
("restricted to the text after the first marker") would also pick up the
labels after the second marker. -/
theorem C1_counterexample :
    parse_ranking_from_text
        (lit "FINAL RANKING:\n1. Response A\nFINAL RANKING:\n1. Response B")
      = [lit "Response A"] ∧
    claimParseC1 (lit "FINAL RANKING:\n1. Response A\nFINAL RANKING:\n1. Response B")
      = [lit "Response A", lit "Response B"] := by
  constructor
  · decide
  · decide

/-- C1 (amended): ranking parsing follows the spec's algorithm with the
region taken between the first marker and its next occurrence (or the
end); numbered-list matches are preferred, extracting the `Response X`
tokens in input order, with a bare scan fallback; the claim's two
concrete examples hold. -/
theorem C1_ranking_parse_amended :
    (∀ t : Str, parse_ranking_from_text t = amendedParseC1 t) ∧
    parse_ranking_from_text
        (lit "...FINAL RANKING:\n1. Response C\n2. Response A\n3. Response B")
      = [lit "Response C", lit "Response A", lit "Response B"] ∧
    (∀ t : Str, containsSub finalMarker t = false → findAllResponse t = [] →
      parse_ranking_from_text t = []) ∧
    parse_ranking_from_text (lit "no ranking marker or labels here") = [] := by
  refine ⟨parse_eq_amended, by decide, ?_, by decide⟩
  intro t hc hf
  simp [parse_ranking_from_text, hc, hf]

/-- C1 witness: the amended theorem applied at a concrete input with its
hypotheses discharged by evaluation. -/
theorem C1_ranking_parse_amended_witness :
    parse_ranking_from_text (lit "plain commentary") = [] :=
  C1_ranking_parse_amended.2.2.1 (lit "plain commentary") (by decide) (by decide)

/-- Python value stored under a member's `max_output_tokens` key.
`int(value)` succeeds on ints and on numeric strings, and raises
`TypeError`/`ValueError` on `None` and non-numeric strings. -/
inductive PyVal where
  | pyInt (n : Int)
  | pyStr (s : Str)
  | pyNone
deriving DecidableEq

/-- Python `int(s)` on a string: optional surrounding whitespace, an
optional sign, then one or more ASCII digits. -/
def parseIntStr (s : Str) : Option Int :=
  let core := ((s.dropWhile isSpaceWS).reverse.dropWhile isSpaceWS).reverse
  let signed : Int × Str :=
    match core with
    | '-' :: rest => (-1, rest)
    | '+' :: rest => (1, rest)
    | _ => (1, core)
  if !signed.2.isEmpty && signed.2.all isDigit09 then
    some (signed.1 *
      (signed.2.foldl (fun acc c => 10 * acc + ((c.toNat - '0'.toNat : Nat) : Int)) 0))
  else none

/-- Python `int(value)` as used by the token normalizers: `some` on
success, `none` when `TypeError`/`ValueError` is raised. -/
def pyToInt : PyVal → Option Int
  | .pyInt n => some n
  | .pyStr s => parseIntStr s
  | .pyNone => none

/-- Embedding of `council._member_max_output_tokens`, parametrized by
the config constants `DEFAULT_MEMBER_MAX_OUTPUT_TOKENS` and
`MAX_MEMBER_MAX_OUTPUT_TOKENS` (their numeric values live in a config
module that is not part of the sources; the spec constrains them to
`1 ≤ DEFAULT ≤ MAX`).  `field` is `member.get("max_output_tokens")`,
`none` when the key is missing. -/
def member_max_output_tokens (DEFAULT MAX : Int) (field : Option PyVal) : Int :=
  match pyToInt (field.getD (.pyInt DEFAULT)) with
  | none => DEFAULT
  | some value => if value < 1 then DEFAULT else min value MAX

/-- Embedding of `council_settings._normalize_member_max_output_tokens`
on the raw field value (a missing key arrives as Python `None`). -/
def normalize_member_max_output_tokens (DEFAULT MAX : Int) (value : PyVal) : Int :=
  match pyToInt value with
  | none => DEFAULT
  | some parsed => if parsed < 1 then DEFAULT else min parsed MAX

/-- C10: for constants with 1 ≤ DEFAULT ≤ MAX, the effective budget is
always in [1, MAX]; missing, non-numeric, and below-1 values fall back
to DEFAULT, and numeric values ≥ 1 are clamped to MAX.  The settings
normalizer obeys the same bounds. -/
theorem C10_max_output_tokens_clamped :
    ∀ (DEFAULT MAX : Int), 1 ≤ DEFAULT → DEFAULT ≤ MAX →
      (∀ field : Option PyVal,
        1 ≤ member_max_output_tokens DEFAULT MAX field ∧
          member_max_output_tokens DEFAULT MAX field ≤ MAX) ∧
      (member_max_output_tokens DEFAULT MAX none = DEFAULT) ∧
      (∀ v : PyVal, pyToInt v = none →
        member_max_output_tokens DEFAULT MAX (some v) = DEFAULT) ∧
      (∀ (v : PyVal) (n : Int), pyToInt v = some n → n < 1 →
        member_max_output_tokens DEFAULT MAX (some v) = DEFAULT) ∧
      (∀ (v : PyVal) (n : Int), pyToInt v = some n → 1 ≤ n →
        member_max_output_tokens DEFAULT MAX (some v) = min n MAX) ∧
      (∀ v : PyVal,
        1 ≤ normalize_member_max_output_tokens DEFAULT MAX v ∧
          normalize_member_max_output_tokens DEFAULT MAX v ≤ MAX) := by
  intro DEFAULT MAX h1 h2
  refine ⟨?_, ?_, ?_, ?_, ?_, ?_⟩
  · intro field
    unfold member_max_output_tokens
    cases hp : pyToInt (field.getD (.pyInt DEFAULT)) with
    | none => exact ⟨h1, h2⟩
    | some value =>
      by_cases hv : value < 1
      · simp only [hv, if_true]
        exact ⟨h1, h2⟩
      · simp only [hv, if_false]
        constructor
        · exact le_min (by omega) (by omega)
        · exact min_le_right _ _
  · unfold member_max_output_tokens
    simp only [Option.getD_none, pyToInt]
    have : ¬ DEFAULT < 1 := by omega
    simp only [this, if_false]
    exact min_eq_left h2
  · intro v hv
    unfold member_max_output_tokens
    simp [hv]
  · intro v n hv hn
    unfold member_max_output_tokens
    simp [hv, hn]
  · intro v n hv hn
    unfold member_max_output_tokens
    have : ¬ n < 1 := by omega
    simp [hv, this]
  · intro v
    unfold normalize_member_max_output_tokens
    cases hp : pyToInt v with
    | none => exact ⟨h1, h2⟩
    | some parsed =>
      by_cases hv : parsed < 1
      · simp only [hv, if_true]
        exact ⟨h1, h2⟩
      · simp only [hv, if_false]
        exact ⟨le_min (by omega) (by omega), min_le_right _ _⟩

/-- C10 witness: concrete constants and a concrete over-cap value. -/
theorem C10_max_output_tokens_clamped_witness :
    member_max_output_tokens 8192 64000 (some (.pyInt 100000)) = min 100000 64000 :=
  (C10_max_output_tokens_clamped 8192 64000 (by decide) (by decide)).2.2.2.2.1
    (.pyInt 100000) 100000 rfl (by decide)

/-- Result entry of a responses stage, as built by
`council._collect_stage_responses`. -/
structure ResultEntry where
  model : Str
  response : Str
  status : Str
  error : Option Str := none
  system_prompt_dropped : Bool := false
  stream_error : Option Str := none
deriving DecidableEq

/-- Successful results only: status is not "failed" and the response
text is truthy (`council.collect_rankings`, lines 293-297). -/
def successful_results (responses : List ResultEntry) : List ResultEntry :=
  responses.filter (fun r => (r.status != lit "failed") && (r.response != []))

/-- The anonymized label for index `i`: `"Response " + chr(65 + i)`. -/
def labelFor (i : Nat) : Str := respLit ++ [Char.ofNat (65 + i)]

/-- Embedding of the label map construction of
`council.collect_rankings`: labels A, B, C, ... are zipped with the
successful results in order (a Python dict in insertion order, keys
distinct). -/
def label_to_model (responses : List ResultEntry) : List (Str × Str) :=
  let succ := successful_results responses
  let labels := (List.range succ.length).map (fun i => Char.ofNat (65 + i))
  (labels.zip succ).map (fun lr => (respLit ++ [lr.1], lr.2.model))

lemma label_to_model_eq_enum (responses : List ResultEntry) :
    label_to_model responses
      = ((successful_results responses).enum).map
          (fun ir => (labelFor ir.1, ir.2.model)) := by
  simp only [label_to_model, labelFor]
  rw [List.zip_map_left, List.enum_eq_zip_range, List.map_map]
  rfl

/-- C3: the label map is built only from successful results in their
original order, with consecutive labels starting at "Response A"; every
value in the map is the model of some successful result; and in the
concrete 3-member stage with one failure the map has exactly the two
labels A and B. -/
theorem C3_label_map :
    (∀ responses : List ResultEntry,
      (label_to_model responses).map Prod.snd
        = (successful_results responses).map ResultEntry.model ∧
      (label_to_model responses).map Prod.fst
        = (List.range (successful_results responses).length).map labelFor ∧
      (∀ p ∈ label_to_model responses,
        ∃ r ∈ successful_results responses, p.2 = r.model) ∧
      (∀ r ∈ responses, r.status = lit "failed" → r ∉ successful_results responses)) ∧
    label_to_model
        [{ model := lit "M1", response := lit "ok1", status := lit "ok" },
         { model := lit "M2", response := [], status := lit "failed",
           error := some (lit "boom") },
         { model := lit "M3", response := lit "ok3", status := lit "ok" }]
      = [(lit "Response A", lit "M1"), (lit "Response B", lit "M3")] := by
  constructor
  · intro responses
    have he := label_to_model_eq_enum responses
    refine ⟨?_, ?_, ?_, ?_⟩
    · rw [he, List.map_map]
      have : (Prod.snd ∘ fun ir : Nat × ResultEntry => (labelFor ir.1, ir.2.model))
          = ResultEntry.model ∘ Prod.snd := rfl
      rw [this, ← List.map_map, List.enum_map_snd]
    · rw [he, List.map_map]
      have : (Prod.fst ∘ fun ir : Nat × ResultEntry => (labelFor ir.1, ir.2.model))
          = labelFor ∘ Prod.fst := rfl
      rw [this, ← List.map_map, List.enum_map_fst]
    · intro p hp
      rw [he] at hp
      obtain ⟨ir, hir, hpe⟩ := List.mem_map.mp hp
      exact ⟨ir.2, List.snd_mem_of_mem_enum hir, by rw [← hpe]⟩
    · intro r _ hfail hmem
      unfold successful_results at hmem
      have hpred := List.of_mem_filter hmem
      rw [Bool.and_eq_true, bne_iff_ne] at hpred
      exact hpred.1 hfail
  · decide

/-- C3 witness: the general part applied to the concrete 3-member
stage, showing the failed member is not among the successful results. -/
theorem C3_label_map_witness :
    ({ model := lit "M2", response := [], status := lit "failed",
       error := some (lit "boom") } : ResultEntry) ∉
      successful_results
        [{ model := lit "M1", response := lit "ok1", status := lit "ok" },
         { model := lit "M2", response := [], status := lit "failed",
           error := some (lit "boom") },
         { model := lit "M3", response := lit "ok3", status := lit "ok" }] :=
  (C3_label_map.1 _).2.2.2 _ (by decide) rfl

/-- Ranking entry of a rankings stage, as built by
`council.collect_rankings`. -/
structure RankingEntry where
  model : Str
  ranking : Str
  parsed_ranking : List Str := []
  stream_error : Option Str := none
deriving DecidableEq

/-- Aggregate entry of `council.calculate_aggregate_rankings`.
`average_rank` holds the two-decimal value produced by
`round(sum(positions)/len(positions), 2)` exactly, in hundredths:
the Python float `1.5` is the integer `150` here.  The representation
is order-isomorphic, so the sort below is unchanged. -/
structure AggEntry where
  model : Str
  average_rank : Int
  rankings_count : Nat
deriving DecidableEq

/-- Python `round(sum(positions)/len(positions), 2)` computed exactly in
hundredths: floor division of `100 * s` by `l` plus half-to-even
correction on the remainder (Python rounds the binary double half to
even; the embedding rounds the exact rational). -/
def roundAvg100 (s l : Nat) : Int :=
  let q : Int := (100 * s : Nat)
  let n : Int := q.fdiv l
  let r : Int := q - n * l
  if 2 * r < (l : Int) then n
  else if (l : Int) < 2 * r then n + 1
  else if Even n then n else n + 1

/-- Append position `p` to `model`'s list in the defaultdict-of-lists,
preserving CPython dict insertion order. -/
def addPos (mps : List (Str × List Nat)) (model : Str) (p : Nat) : List (Str × List Nat) :=
  match mps with
  | [] => [(model, [p])]
  | (k, ps) :: rest =>
    if k = model then (k, ps ++ [p]) :: rest
    else (k, ps) :: addPos rest model p

/-- One rater's contribution to the positions dict:
`enumerate(parsed_ranking, start=1)` with labels resolved through the
label map and unresolved labels skipped. -/
def rankPositions (label_map : List (Str × Str)) (mps : List (Str × List Nat))
    (parsed : List Str) : List (Str × List Nat) :=
  ((parsed.enum).map (fun il => (il.1 + 1, il.2))).foldl
    (fun acc pl =>
      match label_map.lookup pl.2 with
      | some name => addPos acc name pl.1
      | none => acc) mps

/-- The positions dict accumulated over all raters
(`model_positions` in `calculate_aggregate_rankings`; each rater's text
is re-parsed with `parse_ranking_from_text`). -/
def modelPositions (rankings_results : List RankingEntry)
    (label_map : List (Str × Str)) : List (Str × List Nat) :=
  rankings_results.foldl
    (fun mps ranking => rankPositions label_map mps (parse_ranking_from_text ranking.ranking))
    []

/-- Stable insertion for the average-rank sort: a new entry goes after
all existing entries whose key is less than or equal to its own. -/
def insertByAvg (a : AggEntry) : List AggEntry → List AggEntry
  | [] => [a]
  | b :: l =>
    if a.average_rank < b.average_rank then a :: b :: l else b :: insertByAvg a l

/-- Python's stable `list.sort(key=lambda x: x['average_rank'])`:
elements processed left to right, each stably inserted. -/
def sortByAvg (l : List AggEntry) : List AggEntry :=
  l.foldl (fun acc a => insertByAvg a acc) []

/-- The aggregate list before sorting, in dict (first-vote) order. -/
def aggListOf (rankings_results : List RankingEntry)
    (label_map : List (Str × Str)) : List AggEntry :=
  (modelPositions rankings_results label_map).filterMap (fun mp =>
    if mp.2.isEmpty then none
    else some { model := mp.1,
                average_rank := roundAvg100 mp.2.sum mp.2.length,
                rankings_count := mp.2.length })

/-- Embedding of `council.calculate_aggregate_rankings`. -/
def calculate_aggregate_rankings (rankings_results : List RankingEntry)
    (label_map : List (Str × Str)) : List AggEntry :=
  sortByAvg (aggListOf rankings_results label_map)

/-- Specification-side stream of (model, position) votes, in rater
order then parsed order, positions counted from 1 and advancing past
unresolved labels. -/
def voteEvents (rankings : List RankingEntry) (label_map : List (Str × Str)) :
    List (Str × Nat) :=
  rankings.flatMap (fun r =>
    (((parse_ranking_from_text r.ranking).enum).map (fun il => (il.1 + 1, il.2))).filterMap
      (fun pl => (label_map.lookup pl.2).map (fun name => (name, pl.1))))

/-- Specification-side list of positions model `m` receives. -/
def voteSpec (rankings : List RankingEntry) (label_map : List (Str × Str)) (m : Str) :
    List Nat :=
  (voteEvents rankings label_map).filterMap (fun e => if e.1 = m then some e.2 else none)

/-- Positions recorded for `m` in the dict. -/
def posOf (mps : List (Str × List Nat)) (m : Str) : List Nat :=
  match mps.lookup m with
  | some ps => ps
  | none => []

lemma posOf_addPos (mps : List (Str × List Nat)) (k m : Str) (p : Nat) :
    posOf (addPos mps k p) m
      = if k = m then posOf mps m ++ [p] else posOf mps m := by
  induction mps with
  | nil =>
    by_cases h : k = m
    · subst h; simp [addPos, posOf, List.lookup]
    · have hmk : (m == k) = false := beq_eq_false_iff_ne.mpr (fun he => h he.symm)
      simp [addPos, posOf, List.lookup, hmk, h]
  | cons hd rest ih =>
    obtain ⟨k', ps⟩ := hd
    by_cases h1 : k' = k
    · subst h1
      by_cases h2 : k' = m
      · subst h2
        simp [addPos, posOf, List.lookup]
      · have hmk : (m == k') = false := beq_eq_false_iff_ne.mpr (fun he => h2 he.symm)
        simp [addPos, posOf, List.lookup, hmk, h2]
    · by_cases h2 : m = k'
      · subst h2
        have hkm : ¬ k = m := fun he => h1 he.symm
        simp [addPos, if_neg h1, posOf, List.lookup, hkm]
      · have hmk : (m == k') = false := beq_eq_false_iff_ne.mpr h2
        simp only [addPos, if_neg h1, posOf, List.lookup, hmk]
        have hrec := ih
        simp only [posOf] at hrec
        exact hrec

lemma posOf_foldl_events (events : List (Str × Nat)) (mps : List (Str × List Nat)) (m : Str) :
    posOf (events.foldl (fun acc e => addPos acc e.1 e.2) mps) m
      = posOf mps m ++ events.filterMap (fun e => if e.1 = m then some e.2 else none) := by
  induction events generalizing mps with
  | nil => simp
  | cons e rest ih =>
    simp only [List.foldl_cons, List.filterMap_cons]
    rw [ih, posOf_addPos]
    by_cases h : e.1 = m
    · simp [h]
    · simp [h]

lemma keys_addPos (mps : List (Str × List Nat)) (k : Str) (p : Nat) :
    (addPos mps k p).map Prod.fst
      = if k ∈ mps.map Prod.fst then mps.map Prod.fst else mps.map Prod.fst ++ [k] := by
  induction mps with
  | nil => simp [addPos]
  | cons hd rest ih =>
    obtain ⟨k', ps⟩ := hd
    by_cases h1 : k' = k
    · subst h1; simp [addPos]
    · have h1' : ¬ k = k' := fun he => h1 he.symm
      by_cases h2 : k ∈ rest.map Prod.fst
      · simp [addPos, h1, ih, h2, h1']
      · simp [addPos, h1, ih, h2, h1']

lemma keys_foldl_events (events : List (Str × Nat)) (mps : List (Str × List Nat)) :
    ((events.foldl (fun acc e => addPos acc e.1 e.2) mps).map Prod.fst)
      = events.foldl (fun ks e => if e.1 ∈ ks then ks else ks ++ [e.1])
          (mps.map Prod.fst) := by
  induction events generalizing mps with
  | nil => simp
  | cons e rest ih =>
    simp only [List.foldl_cons]
    rw [ih, keys_addPos]

lemma nodup_keys_foldl (events : List (Str × Nat)) (mps : List (Str × List Nat))
    (h : (mps.map Prod.fst).Nodup) :
    ((events.foldl (fun acc e => addPos acc e.1 e.2) mps).map Prod.fst).Nodup := by
  induction events generalizing mps with
  | nil => simpa
  | cons e rest ih =>
    simp only [List.foldl_cons]
    apply ih
    rw [keys_addPos]
    by_cases hm : e.1 ∈ mps.map Prod.fst
    · simpa [hm]
    · simp only [hm, if_false]
      refine h.append (List.nodup_singleton _) ?_
      intro x hx hx'
      simp only [List.mem_singleton] at hx'
      subst hx'
      exact hm hx

lemma pos_nonempty_addPos : ∀ (mps : List (Str × List Nat)) (k : Str) (p : Nat),
    (∀ mp ∈ mps, mp.2 ≠ []) → ∀ mp ∈ addPos mps k p, mp.2 ≠ [] := by
  intro mps
  induction mps with
  | nil =>
    intro k p _ mp hmp
    simp only [addPos, List.mem_singleton] at hmp
    subst hmp
    simp
  | cons hd rest ih =>
    intro k p h mp hmp
    obtain ⟨k', ps⟩ := hd
    simp only [addPos] at hmp
    by_cases h1 : k' = k
    · rw [if_pos h1] at hmp
      rcases List.mem_cons.mp hmp with he | hmem
      · subst he; simp
      · exact h mp (List.mem_cons_of_mem _ hmem)
    · rw [if_neg h1] at hmp
      rcases List.mem_cons.mp hmp with he | hmem
      · subst he; exact h _ (List.mem_cons_self _ _)
      · exact ih k p (fun q hq => h q (List.mem_cons_of_mem _ hq)) mp hmem

lemma pos_nonempty_foldl (events : List (Str × Nat)) (mps : List (Str × List Nat))
    (h : ∀ mp ∈ mps, mp.2 ≠ []) :
    ∀ mp ∈ events.foldl (fun acc e => addPos acc e.1 e.2) mps, mp.2 ≠ [] := by
  induction events generalizing mps with
  | nil => exact h
  | cons e rest ih =>
    simp only [List.foldl_cons]
    exact ih _ (pos_nonempty_addPos _ _ _ h)

lemma lookup_eq_of_mem_nodup {mps : List (Str × List Nat)} {mp : Str × List Nat}
    (hn : (mps.map Prod.fst).Nodup) (hm : mp ∈ mps) :
    mps.lookup mp.1 = some mp.2 := by
  induction mps with
  | nil => simp at hm
  | cons hd rest ih =>
    obtain ⟨k', ps⟩ := hd
    rcases List.mem_cons.mp hm with he | hm'
    · subst he
      simp [List.lookup]
    · have hk : k' ≠ mp.1 := by
        intro he
        have : mp.1 ∈ rest.map Prod.fst := List.mem_map_of_mem Prod.fst hm'
        rw [← he] at this
        exact (List.nodup_cons.mp (by simpa using hn)).1 this
      have hk' : (mp.1 == k') = false := beq_eq_false_iff_ne.mpr (fun he => hk he.symm)
      simp only [List.lookup, hk']
      exact ih (List.nodup_cons.mp (by simpa using hn)).2 hm'

lemma mem_keys_iff_lookup (mps : List (Str × List Nat)) (m : Str) :
    m ∈ mps.map Prod.fst ↔ (mps.lookup m).isSome := by
  induction mps with
  | nil => simp [List.lookup]
  | cons hd rest ih =>
    obtain ⟨k', ps⟩ := hd
    by_cases h : k' = m
    · subst h; simp [List.lookup]
    · have hmk : (m == k') = false := beq_eq_false_iff_ne.mpr (fun he => h he.symm)
      simp only [List.map_cons, List.mem_cons, List.lookup, hmk]
      constructor
      · rintro (he | hmem)
        · exact (h he.symm).elim
        · exact ih.mp hmem
      · intro hs
        exact Or.inr (ih.mpr hs)

lemma foldl_match_filterMap (label_map : List (Str × Str)) :
    ∀ (pls : List (Nat × Str)) (mps : List (Str × List Nat)),
      pls.foldl (fun acc pl =>
          match label_map.lookup pl.2 with
          | some name => addPos acc name pl.1
          | none => acc) mps
        = (pls.filterMap (fun pl =>
            (label_map.lookup pl.2).map (fun name => (name, pl.1)))).foldl
            (fun acc e => addPos acc e.1 e.2) mps := by
  intro pls
  induction pls with
  | nil => intro mps; rfl
  | cons pl rest ih =>
    intro mps
    simp only [List.foldl_cons, List.filterMap_cons]
    cases hlk : label_map.lookup pl.2 with
    | none => simp only [Option.map_none']; exact ih mps
    | some name => simp only [Option.map_some', List.foldl_cons]; exact ih _

lemma modelPositions_eq_events :
    ∀ (rankings : List RankingEntry) (label_map : List (Str × Str))
      (mps : List (Str × List Nat)),
      rankings.foldl
          (fun acc ranking =>
            rankPositions label_map acc (parse_ranking_from_text ranking.ranking)) mps
        = (voteEvents rankings label_map).foldl (fun acc e => addPos acc e.1 e.2) mps := by
  intro rankings
  induction rankings with
  | nil => intro label_map mps; rfl
  | cons r rest ih =>
    intro label_map mps
    simp only [List.foldl_cons, voteEvents, List.flatMap_cons, List.foldl_append]
    rw [ih]
    congr 1
    unfold rankPositions
    rw [foldl_match_filterMap]

lemma modelPositions_eq (rankings : List RankingEntry) (label_map : List (Str × Str)) :
    modelPositions rankings label_map
      = (voteEvents rankings label_map).foldl (fun acc e => addPos acc e.1 e.2) [] :=
  modelPositions_eq_events rankings label_map []

lemma modelPositions_nonempty (rankings : List RankingEntry) (label_map : List (Str × Str)) :
    ∀ mp ∈ modelPositions rankings label_map, mp.2 ≠ [] := by
  rw [modelPositions_eq]
  exact pos_nonempty_foldl _ _ (by simp)

lemma modelPositions_nodup (rankings : List RankingEntry) (label_map : List (Str × Str)) :
    ((modelPositions rankings label_map).map Prod.fst).Nodup := by
  rw [modelPositions_eq]
  exact nodup_keys_foldl _ _ (by simp)

lemma posOf_modelPositions (rankings : List RankingEntry) (label_map : List (Str × Str))
    (m : Str) :
    posOf (modelPositions rankings label_map) m = voteSpec rankings label_map m := by
  rw [modelPositions_eq, posOf_foldl_events]
  simp [posOf, voteSpec]

lemma mem_of_lookup_eq_some {mps : List (Str × List Nat)} {m : Str} {ps : List Nat}
    (h : mps.lookup m = some ps) : (m, ps) ∈ mps := by
  induction mps with
  | nil => simp [List.lookup] at h
  | cons hd rest ih =>
    obtain ⟨k', b⟩ := hd
    cases hbe : (m == k') with
    | true =>
      have hme : m = k' := eq_of_beq hbe
      simp only [List.lookup, hbe] at h
      injection h with h'
      subst hme
      subst h'
      exact List.mem_cons_self _ _
    | false =>
      simp only [List.lookup, hbe] at h
      exact List.mem_cons_of_mem _ (ih h)

/-- Comparison used by the aggregate sort. -/
abbrev avgLE (x y : AggEntry) : Prop := x.average_rank ≤ y.average_rank

lemma mem_insertByAvg {x a : AggEntry} : ∀ {l : List AggEntry},
    x ∈ insertByAvg a l ↔ x = a ∨ x ∈ l := by
  intro l
  induction l with
  | nil => simp [insertByAvg]
  | cons b t ih =>
    simp only [insertByAvg]
    by_cases hc : a.average_rank < b.average_rank
    · rw [if_pos hc]
      simp [List.mem_cons]
    · rw [if_neg hc]
      simp only [List.mem_cons, ih]
      tauto

lemma sorted_insertByAvg {a : AggEntry} : ∀ {l : List AggEntry},
    List.Sorted avgLE l → List.Sorted avgLE (insertByAvg a l) := by
  intro l
  induction l with
  | nil => intro _; simp [insertByAvg]
  | cons b t ih =>
    intro h
    rw [List.sorted_cons] at h
    simp only [insertByAvg]
    by_cases hc : a.average_rank < b.average_rank
    · rw [if_pos hc, List.sorted_cons]
      refine ⟨?_, List.sorted_cons.mpr h⟩
      intro x hx
      rcases List.mem_cons.mp hx with he | hm
      · subst he; exact le_of_lt hc
      · exact le_trans (le_of_lt hc) (h.1 x hm)
    · rw [if_neg hc, List.sorted_cons]
      constructor
      · intro x hx
        rcases mem_insertByAvg.mp hx with he | hm
        · subst he; exact le_of_not_lt hc
        · exact h.1 x hm
      · exact ih h.2

lemma perm_insertByAvg (a : AggEntry) : ∀ l : List AggEntry,
    List.Perm (insertByAvg a l) (a :: l) := by
  intro l
  induction l with
  | nil => simp [insertByAvg]
  | cons b t ih =>
    simp only [insertByAvg]
    by_cases hc : a.average_rank < b.average_rank
    · rw [if_pos hc]
    · rw [if_neg hc]
      exact List.Perm.trans (List.Perm.cons b ih) (List.Perm.swap a b t)

lemma sortByAvg_sorted_aux : ∀ (l acc : List AggEntry), List.Sorted avgLE acc →
    List.Sorted avgLE (l.foldl (fun acc a => insertByAvg a acc) acc) := by
  intro l
  induction l with
  | nil => intro acc h; exact h
  | cons a t ih =>
    intro acc h
    simp only [List.foldl_cons]
    exact ih _ (sorted_insertByAvg h)

lemma sortByAvg_sorted (l : List AggEntry) : List.Sorted avgLE (sortByAvg l) :=
  sortByAvg_sorted_aux l [] (by simp)

lemma sortByAvg_perm_aux : ∀ (l acc : List AggEntry),
    List.Perm (l.foldl (fun acc a => insertByAvg a acc) acc) (acc ++ l) := by
  intro l
  induction l with
  | nil => intro acc; simp
  | cons a t ih =>
    intro acc
    simp only [List.foldl_cons]
    exact List.Perm.trans
      (List.Perm.trans (ih _) (List.Perm.append_right t (perm_insertByAvg a acc)))
      List.perm_middle.symm

lemma sortByAvg_perm (l : List AggEntry) : List.Perm (sortByAvg l) l := by
  simpa using sortByAvg_perm_aux l []

lemma filter_insertByAvg (c : Int) (a : AggEntry) : ∀ {l : List AggEntry},
    List.Sorted avgLE l →
    (insertByAvg a l).filter (fun e => decide (e.average_rank = c))
      = l.filter (fun e => decide (e.average_rank = c))
        ++ if a.average_rank = c then [a] else [] := by
  intro l
  induction l with
  | nil =>
    intro _
    by_cases hac : a.average_rank = c <;> simp [insertByAvg, hac]
  | cons b t ih =>
    intro h
    rw [List.sorted_cons] at h
    simp only [insertByAvg]
    by_cases hc : a.average_rank < b.average_rank
    · rw [if_pos hc]
      by_cases hac : a.average_rank = c
      · have hfe : (b :: t).filter (fun e => decide (e.average_rank = c)) = [] := by
          rw [List.filter_eq_nil_iff]
          intro x hx
          have hgt : a.average_rank < x.average_rank := by
            rcases List.mem_cons.mp hx with he | hm
            · subst he; exact hc
            · exact lt_of_lt_of_le hc (h.1 x hm)
          simp only [decide_eq_true_eq]
          intro hxe
          rw [hxe, ← hac] at hgt
          exact lt_irrefl _ hgt
        simp [List.filter_cons, hfe, hac]
      · simp [List.filter_cons, hac]
    · rw [if_neg hc]
      simp only [List.filter_cons]
      rw [ih h.2]
      by_cases hbc : b.average_rank = c
      · simp [hbc]
      · simp [hbc]

lemma filter_sortByAvg_aux (c : Int) : ∀ (l acc : List AggEntry),
    List.Sorted avgLE acc →
    (l.foldl (fun acc a => insertByAvg a acc) acc).filter
        (fun e => decide (e.average_rank = c))
      = acc.filter (fun e => decide (e.average_rank = c))
        ++ l.filter (fun e => decide (e.average_rank = c)) := by
  intro l
  induction l with
  | nil => intro acc _; simp
  | cons a t ih =>
    intro acc h
    simp only [List.foldl_cons]
    rw [ih _ (sorted_insertByAvg h), filter_insertByAvg c a h, List.filter_cons]
    by_cases hac : a.average_rank = c
    · simp [hac]
    · simp [hac]

lemma filter_sortByAvg (c : Int) (l : List AggEntry) :
    (sortByAvg l).filter (fun e => decide (e.average_rank = c))
      = l.filter (fun e => decide (e.average_rank = c)) := by
  simpa using filter_sortByAvg_aux c l [] (by simp)

lemma aggListOf_models (rankings : List RankingEntry) (label_map : List (Str × Str)) :
    (aggListOf rankings label_map).map AggEntry.model
      = (modelPositions rankings label_map).map Prod.fst := by
  unfold aggListOf
  have hne := modelPositions_nonempty rankings label_map
  generalize modelPositions rankings label_map = mps at hne ⊢
  induction mps with
  | nil => rfl
  | cons mp rest ih =>
    have hmp : mp.2 ≠ [] := hne mp (List.mem_cons_self _ _)
    have hie : mp.2.isEmpty = false := by
      cases hm2 : mp.2 with
      | nil => exact absurd hm2 hmp
      | cons x xs => rfl
    simp only [List.filterMap_cons, hie, if_false, Bool.false_eq_true, List.map_cons]
    rw [ih (fun q hq => hne q (List.mem_cons_of_mem _ hq))]

lemma aggListOf_entry {rankings : List RankingEntry} {label_map : List (Str × Str)}
    {e : AggEntry} (he : e ∈ aggListOf rankings label_map) :
    e.average_rank
        = roundAvg100 (voteSpec rankings label_map e.model).sum
            (voteSpec rankings label_map e.model).length
      ∧ e.rankings_count = (voteSpec rankings label_map e.model).length := by
  unfold aggListOf at he
  obtain ⟨mp, hmp, hmk⟩ := List.mem_filterMap.mp he
  by_cases hie : mp.2.isEmpty
  · rw [if_pos hie] at hmk
    exact absurd hmk (by simp)
  · rw [if_neg hie, Option.some.injEq] at hmk
    subst hmk
    have hvp : mp.2 = voteSpec rankings label_map mp.1 := by
      have hlk := lookup_eq_of_mem_nodup (modelPositions_nodup rankings label_map) hmp
      have hpos : posOf (modelPositions rankings label_map) mp.1 = mp.2 := by
        simp [posOf, hlk]
      rw [← hpos, posOf_modelPositions]
    constructor
    · simp only [hvp]
    · simp only [hvp]

lemma mem_agg_models_iff (rankings : List RankingEntry) (label_map : List (Str × Str))
    (m : Str) :
    m ∈ (aggListOf rankings label_map).map AggEntry.model
      ↔ voteSpec rankings label_map m ≠ [] := by
  rw [aggListOf_models]
  constructor
  · intro hm
    have hs := (mem_keys_iff_lookup _ m).mp hm
    cases hps : (modelPositions rankings label_map).lookup m with
    | none => rw [hps] at hs; simp at hs
    | some ps =>
      have hmem := mem_of_lookup_eq_some hps
      have hne := modelPositions_nonempty rankings label_map _ hmem
      have hpos : posOf (modelPositions rankings label_map) m = ps := by
        simp [posOf, hps]
      rw [← posOf_modelPositions rankings label_map m, hpos]
      exact hne
  · intro hv
    apply (mem_keys_iff_lookup _ m).mpr
    cases hps : (modelPositions rankings label_map).lookup m with
    | none =>
      exfalso
      apply hv
      rw [← posOf_modelPositions rankings label_map m]
      simp [posOf, hps]
    | some ps => rfl

/-- C2: aggregation assigns positions 1..k by parsed index, drops labels
absent from the map while positions still advance (built into
`voteSpec`), outputs exactly one entry per model with at least one vote
(zero-vote models are absent), with `average_rank` the rounded mean of
that model's positions, sorted ascending by `average_rank`; ties keep
the pre-sort dict order, which is first-vote order; and the concrete
two-rater example yields averages 1.0 and 2.0 sorted `[Alpha, Beta]`. -/
theorem C2_aggregate_rankings :
    (∀ (rankings : List RankingEntry) (label_map : List (Str × Str)),
      List.Sorted avgLE (calculate_aggregate_rankings rankings label_map) ∧
      ((calculate_aggregate_rankings rankings label_map).map AggEntry.model).Nodup ∧
      (∀ m : Str,
        m ∈ (calculate_aggregate_rankings rankings label_map).map AggEntry.model
          ↔ voteSpec rankings label_map m ≠ []) ∧
      (∀ e ∈ calculate_aggregate_rankings rankings label_map,
        e.average_rank
            = roundAvg100 (voteSpec rankings label_map e.model).sum
                (voteSpec rankings label_map e.model).length ∧
        e.rankings_count = (voteSpec rankings label_map e.model).length) ∧
      (∀ c : Int,
        (calculate_aggregate_rankings rankings label_map).filter
            (fun e => decide (e.average_rank = c))
          = (aggListOf rankings label_map).filter
              (fun e => decide (e.average_rank = c))) ∧
      (aggListOf rankings label_map).map AggEntry.model
        = (modelPositions rankings label_map).map Prod.fst) ∧
    calculate_aggregate_rankings
        [{ model := lit "R1", ranking := lit "FINAL RANKING:\n1. Response A\n2. Response B" },
         { model := lit "R2", ranking := lit "FINAL RANKING:\n1. Response A\n2. Response B" }]
        [(lit "Response A", lit "Alpha"), (lit "Response B", lit "Beta")]
      = [{ model := lit "Alpha", average_rank := 100, rankings_count := 2 },
         { model := lit "Beta", average_rank := 200, rankings_count := 2 }] := by
  constructor
  · intro rankings label_map
    have hperm : List.Perm (calculate_aggregate_rankings rankings label_map)
        (aggListOf rankings label_map) := sortByAvg_perm _
    refine ⟨sortByAvg_sorted _, ?_, ?_, ?_, ?_, aggListOf_models rankings label_map⟩
    · rw [(hperm.map AggEntry.model).nodup_iff, aggListOf_models]
      exact modelPositions_nodup rankings label_map
    · intro m
      rw [(hperm.map AggEntry.model).mem_iff]
      exact mem_agg_models_iff rankings label_map m
    · intro e he
      exact aggListOf_entry (hperm.mem_iff.mp he)
    · intro c
      exact filter_sortByAvg c _
  · decide

/-- C2 witness: the membership characterization applied at a concrete
rater list and label map. -/
theorem C2_aggregate_rankings_witness :
    lit "Alpha" ∈ (calculate_aggregate_rankings
        [{ model := lit "R1",
           ranking := lit "FINAL RANKING:\n1. Response A\n2. Response B" }]
        [(lit "Response A", lit "Alpha"), (lit "Response B", lit "Beta")]).map
        AggEntry.model :=
  ((C2_aggregate_rankings.1 _ _).2.2.1 (lit "Alpha")).mpr (by decide)

/-- Chat message: `{"role": ..., "content": ...}`. -/
structure Msg where
  role : Str
  content : Str
deriving DecidableEq

/-- Python `str.strip()` (ASCII whitespace fragment). -/
def stripWS (s : Str) : Str :=
  ((s.dropWhile isSpaceWS).reverse.dropWhile isSpaceWS).reverse

/-- Python `str(n)` for a natural number. -/
def natToStr (n : Nat) : Str := Nat.toDigits 10 n

/-- Fuel-indexed worker for `replaceAll`; each step consumes at least
one character when the pattern is nonempty. -/
def replaceAllAux (pat repl : Str) : Nat → Str → Str
  | 0, s => s
  | n + 1, s =>
    match occursAt? pat s with
    | none => s
    | some i => s.take i ++ repl ++ replaceAllAux pat repl n (s.drop (i + pat.length))

/-- Python `s.replace(pat, repl)` for a nonempty pattern. -/
def replaceAll (pat repl s : Str) : Str := replaceAllAux pat repl (s.length + 1) s

/-- The template-substitution dict of `_format_stage_prompt`: its six
keys in insertion order.  Call sites only ever `update` these same keys,
so the iteration order of `_apply_prompt_template` is fixed. -/
structure TemplateValues where
  question : Str
  responses : Str
  response_count : Str
  response_labels : Str
  stage1 : Str
  stage2 : Str
deriving DecidableEq

/-- Overrides passed as `template_values` by the call sites; `none`
means the key is not overridden. -/
structure TemplateOverrides where
  question : Option Str := none
  responses : Option Str := none
  response_count : Option Str := none
  response_labels : Option Str := none
  stage1 : Option Str := none
  stage2 : Option Str := none
deriving DecidableEq

/-- Embedding of `council._apply_prompt_template`: literal find/replace
of each `{key}` in dict order; unknown placeholders pass through. -/
def apply_prompt_template (template : Str) (values : TemplateValues) : Str :=
  let t1 := replaceAll (lit "{question}") values.question template
  let t2 := replaceAll (lit "{responses}") values.responses t1
  let t3 := replaceAll (lit "{response_count}") values.response_count t2
  let t4 := replaceAll (lit "{response_labels}") values.response_labels t3
  let t5 := replaceAll (lit "{stage1}") values.stage1 t4
  replaceAll (lit "{stage2}") values.stage2 t5

/-- The defaults dict of `_format_stage_prompt` updated with the call
site's `template_values`. -/
def mergeTemplateValues (user_query : Str) (prior_context : Option Str)
    (tv : TemplateOverrides) : TemplateValues :=
  { question := tv.question.getD user_query,
    responses := tv.responses.getD (prior_context.getD []),
    response_count := tv.response_count.getD (lit "0"),
    response_labels := tv.response_labels.getD [],
    stage1 := tv.stage1.getD [],
    stage2 := tv.stage2.getD [] }

/-- Embedding of `council._format_stage_prompt` (lines 107-135).  The
history block is appended to `prompt_parts` first, but the template
branch returns the substituted template alone, leaving `prompt_parts`
unused — exactly as the code does. -/
def format_stage_prompt (stage_prompt : Option Str) (user_query : Str)
    (prior_context : Option Str) (tv : TemplateOverrides)
    (conversation_history : Option Str) : Str :=
  let history_block : List Str :=
    match conversation_history with
    | some h => if h ≠ [] then [lit "=== Conversation Context ===\n" ++ h] else []
    | none => []
  let truthy_prompt : Bool :=
    match stage_prompt with
    | some sp => !sp.isEmpty
    | none => false
  if truthy_prompt then
    stripWS (apply_prompt_template (stripWS (stage_prompt.getD []))
      (mergeTemplateValues user_query prior_context tv))
  else
    let parts := history_block
      ++ [lit "User Question: " ++ user_query]
      ++ (match prior_context with
          | some pc => if pc ≠ [] then [lit "Previous Stage Outputs:\n" ++ pc] else []
          | none => [])
    stripWS (List.intercalate (lit "\n\n") parts)

/-- C4 evaluation: with a non-empty template, the composed prompt is the
substituted template only — the already-built history block is absent —
while the empty-template path does prepend the labeled history block. -/
theorem C4_history_dropped_with_template :
    format_stage_prompt (some (lit "T {question}")) (lit "q") none {} (some (lit "H"))
      = lit "T q" ∧
    containsSub (lit "=== Conversation Context ===")
        (format_stage_prompt (some (lit "T {question}")) (lit "q") none {}
          (some (lit "H")))
      = false ∧
    format_stage_prompt none (lit "q") none {} (some (lit "H"))
      = lit "=== Conversation Context ===\nH\n\nUser Question: q" := by
  refine ⟨by decide, by decide, by decide⟩

/-- Council member configuration dict.  The Python `alias` key is named
`aliasName` here (`alias` is a Lean command keyword); `model_id` is
present in every code path that reaches an invocation. -/
structure Member where
  id : Str := []
  aliasName : Option Str := none
  model_id : Str
  system_prompt : Str := []
  max_output_tokens : Option PyVal := none
deriving DecidableEq

/-- `member.get("alias", member.get("model_id", ...))`. -/
def aliasD (m : Member) : Str := m.aliasName.getD m.model_id

/-- Return value of `query_model` / `query_model_stream` when not
`None`.  The Python `partial` key is named `partialFlag` here. -/
structure ModelResponse where
  content : Option Str := none
  error : Option Str := none
  system_prompt_dropped : Bool := false
  partialFlag : Bool := false
deriving DecidableEq

/-- The opaque model-invocation transport: model id and messages
determine the response (`None` models transport-level failure).  The
system prompt and token budget also passed by the code do not affect
the properties proved here and are omitted from the oracle's key. -/
abbrev Oracle : Type := Str → List Msg → Option ModelResponse

/-- Truthy content of a possibly missing response:
`response.get("content") if response else None` followed by Python
truthiness (`""` is falsy). -/
def contentOf (r : Option ModelResponse) : Option Str :=
  match r with
  | none => none
  | some resp =>
    match resp.content with
    | some c => if c.isEmpty then none else some c
    | none => none

/-- Sequential chaining loop shared by `_collect_stage_responses` and
`collect_rankings`: invoke members one at a time; after a member with
truthy content, append a synthetic assistant turn built by `mkTurn` and,
when members remain, the follow-up user turn; a member without content
adds nothing.  Returns, per member, the message list its invocation
received and its response. -/
def seqRun (q : Oracle) (mkTurn : Member → Str → Str) (followup : Str) :
    List Member → List Msg → List (List Msg × Option ModelResponse)
  | [], _ => []
  | m :: rest, msgs =>
    let r := q m.model_id msgs
    let nxt :=
      match contentOf r with
      | some c =>
        let labeled := msgs ++ [⟨lit "assistant", mkTurn m c⟩]
        if rest.isEmpty then labeled else labeled ++ [⟨lit "user", followup⟩]
      | none => msgs
    (msgs, r) :: seqRun q mkTurn followup rest nxt

/-- Synthetic assistant turn of the responses stage. -/
def responsesTurn (m : Member) (c : Str) : Str :=
  lit "Previous member (" ++ aliasD m ++ lit ") response:\n" ++ c

/-- Follow-up user turn of the responses stage. -/
def responsesFollowup : Str :=
  lit "Please respond to the original prompt above, considering any prior members' responses."

/-- Synthetic assistant turn of the rankings stage. -/
def rankingsTurn (m : Member) (c : Str) : Str :=
  lit "Previous member (" ++ aliasD m ++ lit ") ranking:\n" ++ c

/-- Follow-up user turn of the rankings stage. -/
def rankingsFollowup : Str :=
  lit "Please rank the responses using the original prompt above, considering any prior members' rankings."

/-- Result formatting loop of `_collect_stage_responses` (lines
248-269): ok when content is truthy, failed otherwise with the error
annotated. -/
def mkResultEntry (m : Member) (r : Option ModelResponse) : ResultEntry :=
  let resp := r.getD {}
  match contentOf r with
  | some c =>
    { model := aliasD m,
      response := c,
      status := lit "ok",
      system_prompt_dropped := resp.system_prompt_dropped,
      stream_error := if resp.partialFlag then resp.error else none }
  | none =>
    { model := aliasD m,
      response := [],
      status := lit "failed",
      error := some (resp.error.getD (lit "No response received.")),
      system_prompt_dropped := resp.system_prompt_dropped }

/-- `_format_responses_for_context`. -/
def format_responses_for_context (results : List ResultEntry) : Str :=
  List.intercalate (lit "\n\n") (results.map (fun result =>
    if result.status = lit "failed" then
      lit "Model: " ++ result.model ++ lit "\nResponse: [FAILED]\nError: "
        ++ (result.error.getD (lit "No response received."))
    else
      lit "Model: " ++ result.model ++ lit "\nResponse: " ++ result.response))

/-- `_format_responses_for_context` applied to rankings-stage entries
(duck typing: those dicts have no `status` or `response` keys, so every
entry takes the ok branch with empty response text). -/
def format_rankings_for_context (results : List RankingEntry) : Str :=
  List.intercalate (lit "\n\n") (results.map (fun result =>
    lit "Model: " ++ result.model ++ lit "\nResponse: "))

/-- Prompt-and-message construction at the head of
`council._collect_stage_responses` (lines 170-191). -/
def stage_messages (user_query : Str) (stage_prompt : Option Str)
    (prior_context : Option Str) (prior_results : List ResultEntry)
    (responses_context : List ResultEntry) (rankings_context : List RankingEntry)
    (conversation_history : Option Str) : List Msg :=
  let response_count := prior_results.length
  let response_labels := List.intercalate (lit ", ")
    ((prior_results.map ResultEntry.model).filter (fun m => !m.isEmpty))
  let responses_text :=
    if responses_context.isEmpty then [] else format_responses_for_context responses_context
  let rankings_text :=
    if rankings_context.isEmpty then [] else format_rankings_for_context rankings_context
  let prompt_text := format_stage_prompt stage_prompt user_query prior_context
    { responses := some (prior_context.getD []),
      response_count := some (natToStr response_count),
      response_labels := some response_labels,
      stage1 := some responses_text,
      stage2 := some rankings_text }
    conversation_history
  [⟨lit "user", prompt_text⟩]

/-- Embedding of `council._collect_stage_responses`: build the stage
prompt, invoke every member (concurrent batch in configured order, or
the sequential chain), then produce one result entry per member by
zipping members with their responses. -/
def collect_stage_responses (q : Oracle) (members : List Member) (user_query : Str)
    (stage_prompt : Option Str) (execution_mode : Str) (prior_context : Option Str)
    (prior_results : List ResultEntry) (responses_context : List ResultEntry)
    (rankings_context : List RankingEntry) (conversation_history : Option Str) :
    List ResultEntry :=
  let messages := stage_messages user_query stage_prompt prior_context prior_results
    responses_context rankings_context conversation_history
  let responses :=
    if execution_mode = lit "sequential" then
      (seqRun q responsesTurn responsesFollowup members messages).map Prod.snd
    else
      members.map (fun m => q m.model_id messages)
  (members.zip responses).map (fun mr => mkResultEntry mr.1 mr.2)

/-- Stage configuration dict as read by `run_full_council` (untyped
keys possibly missing).  The Python `type` key is named `typeName`. -/
structure StageCfg where
  id : Option Str := none
  name : Option Str := none
  kind : Option Str := none
  prompt : Option Str := none
  execution_mode : Option Str := none
  member_ids : List Str := []
  typeName : Option Str := none
deriving DecidableEq

/-- Council settings snapshot as consumed by `council.py`
(`chairman_label` carries its `.get` default). -/
structure Settings where
  members : List Member := []
  chairman_id : Option Str := none
  chairman_label : Str := lit "Chairman"
  title_model_id : Str := []
  use_system_prompt_stage2 : Bool := true
  use_system_prompt_stage3 : Bool := true
  stages : Option (List StageCfg) := none
  speaker_context_level : Str := lit "full"
deriving DecidableEq

/-- `council_settings.DEFAULT_STAGE2_PROMPT`, verbatim. -/
def DEFAULT_STAGE2_PROMPT : Str := lit "You are evaluating different responses to the following question:\n\nQuestion: {question}\n\nHere are the responses from different models (anonymized):\n\n{responses}\n\nYour task:\n1. First, evaluate each response individually. For each response, explain what it does well and what it does poorly.\n2. Then, at the very end of your response, provide a final ranking.\n\nIMPORTANT: You MUST rank all {response_count} responses exactly once.\nThe responses are: {response_labels}.\n\nIMPORTANT: Your final ranking MUST be formatted EXACTLY as follows:\n- Start with the line \"FINAL RANKING:\" (all caps, with colon)\n- Then list the responses from best to worst as a numbered list\n- Each line should be: number, period, space, then ONLY the response label (e.g., \"1. Response A\")\n- Do not add any other text or explanations in the ranking section\n\nExample of the correct format for your ENTIRE response:\n\nResponse A provides good detail on X but misses Y...\nResponse B is accurate but lacks depth on Z...\nResponse C offers the most comprehensive answer...\n\nFINAL RANKING:\n1. Response C\n2. Response A\n3. Response B\n\nNow provide your evaluation and ranking:"

/-- `council_settings.DEFAULT_STAGE3_PROMPT`, verbatim. -/
def DEFAULT_STAGE3_PROMPT : Str := lit "You are the Chairman of an LLM Council. Multiple AI models have provided responses to a user's question, and then ranked each other's responses.\n\nOriginal Question: {question}\n\nINDIVIDUAL RESPONSES:\n{stage1}\n\nPEER RANKINGS:\n{stage2}\n\nYour task as Chairman is to synthesize all of this information into a single, comprehensive, accurate answer to the user's original question. Consider:\n- The individual responses and their insights\n- The peer rankings and what they reveal about response quality\n- Any patterns of agreement or disagreement\n\nProvide a clear, well-reasoned final answer that represents the council's collective wisdom:"

/-- Prompt-and-message construction of `council.collect_rankings`
(lines 302-336): anonymized labels over the successful responses and
the ranking template (the default when the stage prompt is falsy). -/
def rankings_messages (user_query : Str) (responses : List ResultEntry)
    (stage_prompt : Option Str) (conversation_history : Option Str) : List Msg :=
  let successful := successful_results responses
  let labels := (List.range successful.length).map (fun i => Char.ofNat (65 + i))
  let responses_text := List.intercalate (lit "\n\n")
    ((labels.zip successful).map (fun lr =>
      lit "Response " ++ [lr.1] ++ lit ":\n" ++ lr.2.response))
  let response_labels := labels.map (fun l => lit "Response " ++ [l])
  let prompt_text := format_stage_prompt
    (some (match stage_prompt with
           | some sp => if sp.isEmpty then DEFAULT_STAGE2_PROMPT else sp
           | none => DEFAULT_STAGE2_PROMPT))
    user_query none
    { question := some user_query,
      responses := some responses_text,
      response_count := some (natToStr response_labels.length),
      response_labels := some (List.intercalate (lit ", ") response_labels) }
    conversation_history
  [⟨lit "user", prompt_text⟩]

/-- Embedding of `council.collect_rankings`: empty tuple on zero
successful responses; otherwise anonymize, build the ranking prompt
(default template when the stage prompt is falsy), invoke the members
(settings members unless `stage_members is not None`), and keep —
omitting failed raters — one entry per member with truthy content. -/
def collect_rankings (q : Oracle) (user_query : Str) (responses : List ResultEntry)
    (stage_prompt : Option Str) (execution_mode : Str)
    (stage_members : Option (List Member)) (conversation_history : Option Str)
    (settings : Settings) : List RankingEntry × List (Str × Str) :=
  let successful := successful_results responses
  if successful.isEmpty then ([], [])
  else
    let ltm := label_to_model responses
    let messages := rankings_messages user_query responses stage_prompt
      conversation_history
    let members := stage_members.getD settings.members
    let responsesR :=
      if execution_mode = lit "sequential" then
        (seqRun q rankingsTurn rankingsFollowup members messages).map Prod.snd
      else members.map (fun m => q m.model_id messages)
    let rankings_results := (members.zip responsesR).filterMap (fun mr =>
      match contentOf mr.2 with
      | some c =>
        some { model := aliasD mr.1,
               ranking := c,
               parsed_ranking := parse_ranking_from_text c,
               stream_error :=
                 if (mr.2.getD {}).partialFlag then (mr.2.getD {}).error else none }
      | none => none)
    (rankings_results, ltm)

/-- Synthesis stage result dict (`stream_error` key may be absent). -/
structure SynthResult where
  model : Str
  response : Str
  stream_error : Option Str := none
deriving DecidableEq

/-- Chairman model id resolution of `council._council_config`: the first
member whose id equals `chairman_id`, else the first member. -/
def councilChairman (settings : Settings) : Str :=
  let fromId : Str :=
    match settings.chairman_id with
    | some cid =>
      if cid.isEmpty then []
      else
        match settings.members.find? (fun m => m.id == cid) with
        | some m => m.model_id
        | none => []
    | none => []
  if ¬ fromId.isEmpty then fromId
  else
    match settings.members with
    | [] => []
    | m :: _ => m.model_id

/-- Embedding of `council.synthesize_final`: build the chairman context
from the responses stage ([FAILED] entries rendered inline) and the
raw ranking texts, compose the prompt (default template when the stage
prompt is falsy), query the chairman once, and fall back to an error
dict when the response has no truthy content. -/
def synthesize_final (q : Oracle) (user_query : Str) (responses : List ResultEntry)
    (rankings : List RankingEntry) (stage_prompt : Option Str)
    (stage_members : Option (List Member)) (conversation_history : Option Str)
    (settings : Settings) : SynthResult :=
  let responses_text := format_responses_for_context responses
  let rankings_text := List.intercalate (lit "\n\n") (rankings.map (fun r =>
    lit "Model: " ++ r.model ++ lit "\nRanking: " ++ r.ranking))
  let prompt_text := format_stage_prompt
    (some (match stage_prompt with
           | some sp => if sp.isEmpty then DEFAULT_STAGE3_PROMPT else sp
           | none => DEFAULT_STAGE3_PROMPT))
    user_query none
    { question := some user_query,
      stage1 := some responses_text,
      stage2 := some rankings_text }
    conversation_history
  let messages : List Msg := [⟨lit "user", prompt_text⟩]
  let pick :=
    match stage_members with
    | some sm =>
      if sm.isEmpty then (settings.members, councilChairman settings, settings.chairman_label)
      else
        (sm, (sm.headD { model_id := [] }).model_id,
          ((sm.headD { model_id := [] }).aliasName).getD settings.chairman_label)
    | none => (settings.members, councilChairman settings, settings.chairman_label)
  let chairman_model_id := pick.2.1
  let chairman_label := pick.2.2
  let response := q chairman_model_id messages
  match contentOf response with
  | none =>
    { model := chairman_label,
      response := lit "Error: Unable to generate final synthesis." }
  | some c =>
    { model := chairman_label,
      response := c,
      stream_error :=
        if (response.getD {}).partialFlag then (response.getD {}).error else none }

/-- The heterogeneous `results` value of a stage entry: a list of
response dicts, a list of ranking dicts, a synthesis dict, or absent. -/
inductive StageResults where
  | asList (results : List ResultEntry)
  | asRankings (results : List RankingEntry)
  | asDict (result : SynthResult)
  | missing
deriving DecidableEq

/-- One element of `stages_output` in `run_full_council` (the Python
`type` key is `typeName`; `label_map`/`aggregate` are only populated on
rankings stages, mirroring the conditional `update`). -/
structure StageEntry where
  index : Nat
  id : Str
  name : Str
  prompt : Str
  execution_mode : Str
  kind : Str
  typeName : Str
  results : StageResults := .missing
  label_map : List (Str × Str) := []
  aggregate : List AggEntry := []
deriving DecidableEq

/-- Embedding of `council.get_final_response`: scanning the stages in
reverse, the first whose results are a dict with truthy response. -/
def get_final_response (stages : List StageEntry) : Option SynthResult :=
  stages.reverse.findSome? (fun stage =>
    match stage.results with
    | .asDict r => if r.response.isEmpty then none else some r
    | _ => none)

/-- Stored conversation message as read by the council module. -/
structure ConvMsg where
  role : Str := []
  message_type : Option Str := none
  content : Option Str := none
  response : Option Str := none
  speaker_response : Option Str := none
  stages : Option (List StageEntry) := none
deriving DecidableEq

/-- Embedding of `council._format_conversation_history`. -/
def format_conversation_history (messages : List ConvMsg) : Str :=
  List.intercalate (lit "\n\n") (messages.filterMap (fun msg =>
    if msg.role = lit "user" then
      match msg.content with
      | some c => if c.isEmpty then none else some (lit "User: " ++ c)
      | none => none
    else if msg.role = lit "assistant" then
      if msg.message_type.getD (lit "council") = lit "speaker" then
        match msg.response with
        | some r => if r.isEmpty then none else some (lit "Council Speaker: " ++ r)
        | none => none
      else
        some (lit "Council: "
          ++ (match get_final_response (msg.stages.getD []) with
              | some fr => fr.response
              | none => lit "[Council Deliberation]"))
    else none))

/-- Embedding of `council._resolve_stage_members`: the dict
comprehension keeps the last member per id, and unknown ids are
skipped. -/
def resolve_stage_members (stage : StageCfg) (members : List Member) : List Member :=
  stage.member_ids.filterMap (fun mid => members.reverse.find? (fun m => m.id == mid))

/-- Embedding of `council._resolve_stage_kind`. -/
def resolve_stage_kind (stage : StageCfg) (index : Nat) : Str :=
  let kind := stage.kind.getD []
  if ¬ kind.isEmpty then kind
  else if index = 1 then lit "rankings"
  else if index = 2 then lit "synthesis"
  else lit "responses"

/-- Embedding of `council_settings.build_default_stages`. -/
def build_default_stages (members : List Member) (chairman_id : Option Str) :
    List StageCfg :=
  let member_ids := (members.map Member.id).filter (fun i => !i.isEmpty)
  let default_chairman : Str :=
    match chairman_id with
    | some cid => if member_ids.contains cid then cid else member_ids.headD []
    | none => member_ids.headD []
  [{ id := some (lit "stage-1"), name := some (lit "Individual Responses"),
     kind := some (lit "responses"), prompt := some [],
     execution_mode := some (lit "parallel"), member_ids := member_ids },
   { id := some (lit "stage-2"), name := some (lit "Peer Rankings"),
     kind := some (lit "rankings"), prompt := some DEFAULT_STAGE2_PROMPT,
     execution_mode := some (lit "parallel"), member_ids := member_ids },
   { id := some (lit "stage-3"), name := some (lit "Final Synthesis"),
     kind := some (lit "synthesis"), prompt := some DEFAULT_STAGE3_PROMPT,
     execution_mode := some (lit "sequential"),
     member_ids := if default_chairman.isEmpty then [] else [default_chairman] }]

/-- Run metadata (`label_to_model` / `aggregate_rankings`, set on each
rankings stage). -/
structure Metadata where
  label_map : Option (List (Str × Str)) := none
  aggregate : Option (List AggEntry) := none
deriving DecidableEq

/-- Loop state of `run_full_council`. -/
structure RunState where
  output : List StageEntry := []
  last_responses : List ResultEntry := []
  last_rankings : List RankingEntry := []
  metadata : Metadata := {}
deriving DecidableEq

/-- One iteration of the stage loop of `run_full_council`. -/
def runStage (q : Oracle) (settings : Settings) (user_query : Str)
    (history_text : Option Str) (st : RunState) (istage : Nat × StageCfg) : RunState :=
  let index := istage.1
  let stage := istage.2
  let stage_members := resolve_stage_members stage settings.members
  let stage_prompt := stage.prompt.getD []
  let execution_mode := stage.execution_mode.getD (lit "parallel")
  let stage_kind := resolve_stage_kind stage index
  let entryBase : StageEntry :=
    { index := index,
      id := stage.id.getD (lit "stage-" ++ natToStr (index + 1)),
      name := stage.name.getD (lit "Stage " ++ natToStr (index + 1)),
      prompt := stage_prompt,
      execution_mode := execution_mode,
      kind := stage_kind,
      typeName := stage.typeName.getD (lit "ai") }
  if stage_kind = lit "rankings" then
    let rl := collect_rankings q user_query st.last_responses (some stage_prompt)
      execution_mode (if stage_members.isEmpty then none else some stage_members)
      history_text settings
    let agg := calculate_aggregate_rankings rl.1 rl.2
    let entry : StageEntry :=
      { entryBase with
        results := StageResults.asRankings rl.1,
        label_map := rl.2,
        aggregate := agg }
    { st with
      output := st.output ++ [entry],
      last_rankings := rl.1,
      metadata := { label_map := some rl.2, aggregate := some agg } }
  else if stage_kind = lit "synthesis" then
    let sr := synthesize_final q user_query st.last_responses st.last_rankings
      (some stage_prompt) (if stage_members.isEmpty then none else some stage_members)
      history_text settings
    let entry : StageEntry := { entryBase with results := StageResults.asDict sr }
    { st with output := st.output ++ [entry] }
  else
    let prior_context :=
      if st.last_responses.isEmpty then none
      else some (format_responses_for_context st.last_responses)
    let rr := collect_stage_responses q
      (if stage_members.isEmpty then settings.members else stage_members)
      user_query (some stage_prompt) execution_mode prior_context
      st.last_responses st.last_responses st.last_rankings history_text
    let entry : StageEntry := { entryBase with results := StageResults.asList rr }
    { st with
      output := st.output ++ [entry],
      last_responses := rr }

/-- The synthetic terminal error stage appended by `run_full_council`
when the final `last_responses` list is empty. -/
def errorStage (index : Nat) : StageEntry :=
  { index := index,
    id := lit "stage-error",
    name := lit "Council Error",
    prompt := [],
    execution_mode := lit "sequential",
    kind := lit "synthesis",
    typeName := lit "ai",
    results := .asDict
      { model := lit "error",
        response := lit "All models failed to respond. Please try again." } }

/-- The effective stage list of a run:
`settings.get("stages") or build_default_stages(...)`. -/
def stages_config_of (settings : Settings) : List StageCfg :=
  match settings.stages with
  | some st =>
    if st.isEmpty then build_default_stages settings.members settings.chairman_id
    else st
  | none => build_default_stages settings.members settings.chairman_id

/-- `history_text` computed once at the head of `run_full_council`. -/
def history_text_of (conversation_messages : Option (List ConvMsg)) : Option Str :=
  match conversation_messages with
  | some msgs =>
    if msgs.isEmpty then none else some (format_conversation_history msgs)
  | none => none

/-- The loop state after all configured stages of `run_full_council`
have run. -/
def run_final_state (q : Oracle) (settings : Settings) (user_query : Str)
    (conversation_messages : Option (List ConvMsg)) : RunState :=
  (stages_config_of settings).enum.foldl
    (runStage q settings user_query (history_text_of conversation_messages)) {}

/-- Embedding of `council.run_full_council` (the settings snapshot also
serves the `get_settings()` reads inside `collect_rankings` and
`synthesize_final`, which in the code return the same global object).
A total function: member and stage failures are data, never exceptions. -/
def run_full_council (q : Oracle) (settings : Settings) (user_query : Str)
    (conversation_messages : Option (List ConvMsg)) :
    List StageEntry × Metadata :=
  let final := run_final_state q settings user_query conversation_messages
  if final.output.isEmpty then ([], final.metadata)
  else if final.last_responses.isEmpty then
    (final.output ++ [errorStage final.output.length], final.metadata)
  else (final.output, final.metadata)

lemma seqRun_length (q : Oracle) (mkTurn : Member → Str → Str) (followup : Str) :
    ∀ (members : List Member) (msgs : List Msg),
      (seqRun q mkTurn followup members msgs).length = members.length := by
  intro members
  induction members with
  | nil => intro msgs; rfl
  | cons m rest ih =>
    intro msgs
    simp only [seqRun, List.length_cons]
    rw [ih]

/-- C6: in sequential mode members run one at a time in configured
order (one invocation each); after a success the running messages gain
a synthetic assistant turn carrying the member's alias and its exact
output followed — while members remain — by the "consider prior
members" user turn; a failed member inserts nothing and the chain
continues; with two members, the second invocation's input is exactly
the original messages plus the first member's synthetic turns. -/
theorem C6_sequential_chain :
    (∀ (q : Oracle) (mkTurn : Member → Str → Str) (followup : Str)
        (members : List Member) (msgs : List Msg),
      (seqRun q mkTurn followup members msgs).length = members.length) ∧
    (∀ (q : Oracle) (m : Member) (rest : List Member) (msgs : List Msg),
      contentOf (q m.model_id msgs) = none →
      seqRun q responsesTurn responsesFollowup (m :: rest) msgs
        = (msgs, q m.model_id msgs) :: seqRun q responsesTurn responsesFollowup rest msgs) ∧
    (∀ (q : Oracle) (m : Member) (rest : List Member) (msgs : List Msg) (c : Str),
      contentOf (q m.model_id msgs) = some c → rest ≠ [] →
      seqRun q responsesTurn responsesFollowup (m :: rest) msgs
        = (msgs, q m.model_id msgs)
          :: seqRun q responsesTurn responsesFollowup rest
              (msgs ++ [⟨lit "assistant",
                          lit "Previous member (" ++ aliasD m
                            ++ lit ") response:\n" ++ c⟩,
                        ⟨lit "user", responsesFollowup⟩])) ∧
    (∀ (q : Oracle) (m1 m2 : Member) (msgs : List Msg) (c : Str),
      contentOf (q m1.model_id msgs) = some c →
      (seqRun q responsesTurn responsesFollowup [m1, m2] msgs).map Prod.fst
        = [msgs,
           msgs ++ [⟨lit "assistant",
                      lit "Previous member (" ++ aliasD m1
                        ++ lit ") response:\n" ++ c⟩,
                    ⟨lit "user", responsesFollowup⟩]]) := by
  refine ⟨seqRun_length, ?_, ?_, ?_⟩
  · intro q m rest msgs h
    simp only [seqRun, h]
  · intro q m rest msgs c h hrest
    have hre : rest.isEmpty = false := by
      cases rest with
      | nil => exact absurd rfl hrest
      | cons x xs => rfl
    simp only [seqRun, h, responsesTurn, hre, Bool.false_eq_true, if_false,
      List.append_assoc, List.cons_append, List.nil_append]
  · intro q m1 m2 msgs c h
    simp only [seqRun, h, responsesTurn, List.isEmpty_cons, Bool.false_eq_true,
      if_false, List.map_cons, List.map_nil, List.append_assoc, List.cons_append,
      List.nil_append]

/-- C6 witness: a two-member chain over a concrete oracle. -/
theorem C6_sequential_chain_witness :
    (seqRun (fun mid _ => if mid = lit "mod1"
        then some { content := some (lit "out1") } else none)
      responsesTurn responsesFollowup
      [{ id := lit "m1", aliasName := some (lit "A1"), model_id := lit "mod1" },
       { id := lit "m2", aliasName := some (lit "A2"), model_id := lit "mod2" }]
      [⟨lit "user", lit "prompt"⟩]).map Prod.fst
      = [[⟨lit "user", lit "prompt"⟩],
         [⟨lit "user", lit "prompt"⟩]
           ++ [⟨lit "assistant",
                 lit "Previous member (" ++ lit "A1" ++ lit ") response:\n"
                   ++ lit "out1"⟩,
               ⟨lit "user", responsesFollowup⟩]] :=
  C6_sequential_chain.2.2.2
    (fun mid _ => if mid = lit "mod1"
      then some { content := some (lit "out1") } else none)
    { id := lit "m1", aliasName := some (lit "A1"), model_id := lit "mod1" }
    { id := lit "m2", aliasName := some (lit "A2"), model_id := lit "mod2" }
    [⟨lit "user", lit "prompt"⟩] (lit "out1") (by decide)

lemma mkResultEntry_model (m : Member) (r : Option ModelResponse) :
    (mkResultEntry m r).model = aliasD m := by
  cases h : contentOf r <;> simp [mkResultEntry, h]

lemma zip_mk_map_model : ∀ (members : List Member) (rs : List (Option ModelResponse)),
    rs.length = members.length →
    ((members.zip rs).map (fun mr => mkResultEntry mr.1 mr.2)).map ResultEntry.model
      = members.map aliasD := by
  intro members
  induction members with
  | nil => intro rs _; simp
  | cons m rest ih =>
    intro rs h
    cases rs with
    | nil => simp at h
    | cons r rrest =>
      simp only [List.zip_cons_cons, List.map_cons, mkResultEntry_model]
      rw [ih rrest (by simpa using h)]

lemma zip_self_map {α β : Type} : ∀ (l : List α) (f : α → β),
    l.zip (l.map f) = l.map (fun a => (a, f a)) := by
  intro l f
  induction l with
  | nil => rfl
  | cons a rest ih => simp only [List.map_cons, List.zip_cons_cons, ih]

/-- C5 counterexample: a two-member parallel rankings stage whose second
rater fails produces one result entry, not one per configured member —
failed raters are omitted, with no failed entry recorded. -/
theorem C5_counterexample :
    ((collect_rankings
        (fun mid _ => if mid = lit "mod1"
          then some { content := some (lit "FINAL RANKING:\n1. Response A") }
          else none)
        (lit "q")
        [{ model := lit "MA", response := lit "r", status := lit "ok" }]
        (some (lit "P")) (lit "parallel")
        (some [{ id := lit "m1", aliasName := some (lit "A1"), model_id := lit "mod1" },
               { id := lit "m2", aliasName := some (lit "A2"), model_id := lit "mod2" }])
        none {}).1).length = 1 ∧
    ([{ id := lit "m1", aliasName := some (lit "A1"), model_id := lit "mod1" },
      { id := lit "m2", aliasName := some (lit "A2"), model_id := lit "mod2" }] :
        List Member).length = 2 := by
  constructor
  · decide
  · decide

/-- C5 (amended): responses stages return exactly one entry per
configured member in configured order, with a member's failure recorded
in its own entry (status failed, error annotated) and, in parallel
mode, each entry a function of that member's own invocation on the
shared messages; rankings stages invoke members in configured order on
shared messages without a failure affecting siblings, but omit failed
raters' entries entirely (and return nothing when no successful
responses exist). -/
theorem C5_stage_results_amended :
    (∀ (q : Oracle) (members : List Member) (uq : Str) (sp : Option Str)
        (mode : Str) (pc : Option Str) (pr rc : List ResultEntry)
        (kc : List RankingEntry) (ch : Option Str),
      (collect_stage_responses q members uq sp mode pc pr rc kc ch).map
          ResultEntry.model = members.map aliasD) ∧
    (∀ (m : Member) (r : Option ModelResponse),
      ((mkResultEntry m r).status = lit "failed" ↔ contentOf r = none) ∧
      (contentOf r = none →
        (mkResultEntry m r).error
          = some ((r.getD {}).error.getD (lit "No response received.")))) ∧
    (∀ (q : Oracle) (members : List Member) (uq : Str) (sp : Option Str)
        (pc : Option Str) (pr rc : List ResultEntry) (kc : List RankingEntry)
        (ch : Option Str),
      collect_stage_responses q members uq sp (lit "parallel") pc pr rc kc ch
        = members.map (fun m =>
            mkResultEntry m (q m.model_id (stage_messages uq sp pc pr rc kc ch)))) ∧
    (∀ (q : Oracle) (uq : Str) (responses : List ResultEntry) (sp : Option Str)
        (mode : Str) (sm : Option (List Member)) (ch : Option Str)
        (settings : Settings),
      successful_results responses = [] →
      collect_rankings q uq responses sp mode sm ch settings = ([], [])) ∧
    (∀ (q : Oracle) (uq : Str) (responses : List ResultEntry) (sp : Option Str)
        (sm : Option (List Member)) (ch : Option Str) (settings : Settings),
      successful_results responses ≠ [] →
      (collect_rankings q uq responses sp (lit "parallel") sm ch settings).1
        = ((sm.getD settings.members).map (fun m =>
            (m, q m.model_id (rankings_messages uq responses sp ch)))).filterMap
            (fun mr =>
              match contentOf mr.2 with
              | some c =>
                some { model := aliasD mr.1, ranking := c,
                       parsed_ranking := parse_ranking_from_text c,
                       stream_error :=
                         if (mr.2.getD {}).partialFlag then (mr.2.getD {}).error
                         else none }
              | none => none)) := by
  refine ⟨?_, ?_, ?_, ?_, ?_⟩
  · intro q members uq sp mode pc pr rc kc ch
    by_cases hm : mode = lit "sequential"
    · simp only [collect_stage_responses, hm, if_true]
      exact zip_mk_map_model members _ (by rw [List.length_map, seqRun_length])
    · simp only [collect_stage_responses, if_neg hm]
      exact zip_mk_map_model members _ (by rw [List.length_map])
  · intro m r
    constructor
    · cases h : contentOf r with
      | none => simp [mkResultEntry, h]
      | some c =>
        simp only [mkResultEntry, h]
        exact iff_of_false (by decide) (by simp)
    · intro h
      simp [mkResultEntry, h]
  · intro q members uq sp pc pr rc kc ch
    have hne : ¬ (lit "parallel" = lit "sequential") := by decide
    simp only [collect_stage_responses, if_neg hne]
    rw [zip_self_map, List.map_map]
    rfl
  · intro q uq responses sp mode sm ch settings h
    simp [collect_rankings, h]
  · intro q uq responses sp sm ch settings h
    have hie : (successful_results responses).isEmpty = false := by
      cases hsr : successful_results responses with
      | nil => exact absurd hsr h
      | cons a l => rfl
    have hne : ¬ (lit "parallel" = lit "sequential") := by decide
    simp only [collect_rankings, hie, Bool.false_eq_true, if_false, if_neg hne]
    rw [zip_self_map]

/-- C5 witness: the zero-successes clause applied at concrete inputs. -/
theorem C5_stage_results_amended_witness :
    collect_rankings (fun _ _ => none) (lit "q") [] none (lit "parallel") none none {}
      = ([], []) :=
  C5_stage_results_amended.2.2.2.1 (fun _ _ => none) (lit "q") [] none
    (lit "parallel") none none {} rfl

lemma collect_stage_responses_length (q : Oracle) (members : List Member) (uq : Str)
    (sp : Option Str) (mode : Str) (pc : Option Str) (pr rc : List ResultEntry)
    (kc : List RankingEntry) (ch : Option Str) :
    (collect_stage_responses q members uq sp mode pc pr rc kc ch).length
      = members.length := by
  by_cases hm : mode = lit "sequential"
  · simp only [collect_stage_responses, hm, if_true]
    simp [List.length_zip, seqRun_length]
  · simp only [collect_stage_responses, if_neg hm]
    simp [List.length_zip]

/-- A stage hits the responses branch of the run loop iff its resolved
kind is neither rankings nor synthesis. -/
def isResponsesBranch (idx : Nat) (stage : StageCfg) : Prop :=
  resolve_stage_kind stage idx ≠ lit "rankings"
    ∧ resolve_stage_kind stage idx ≠ lit "synthesis"

instance (idx : Nat) (stage : StageCfg) : Decidable (isResponsesBranch idx stage) := by
  unfold isResponsesBranch
  infer_instance

lemma runStage_output (q : Oracle) (settings : Settings) (uq : Str) (ht : Option Str)
    (st : RunState) (istage : Nat × StageCfg) :
    ∃ e, (runStage q settings uq ht st istage).output = st.output ++ [e] := by
  simp only [runStage]
  split_ifs
  all_goals exact ⟨_, rfl⟩

lemma foldl_output_length (q : Oracle) (settings : Settings) (uq : Str)
    (ht : Option Str) :
    ∀ (stages : List (Nat × StageCfg)) (st : RunState),
      ((stages.foldl (runStage q settings uq ht) st).output).length
        = st.output.length + stages.length := by
  intro stages
  induction stages with
  | nil => intro st; simp
  | cons istage rest ih =>
    intro st
    simp only [List.foldl_cons, List.length_cons]
    rw [ih]
    obtain ⟨e, he⟩ := runStage_output q settings uq ht st istage
    rw [he]
    simp only [List.length_append, List.length_singleton]
    omega

lemma runStage_last_responses (q : Oracle) (settings : Settings) (uq : Str)
    (ht : Option Str) (st : RunState) (istage : Nat × StageCfg) :
    (runStage q settings uq ht st istage).last_responses
      = if isResponsesBranch istage.1 istage.2
        then collect_stage_responses q
          (if (resolve_stage_members istage.2 settings.members).isEmpty
            then settings.members
            else resolve_stage_members istage.2 settings.members)
          uq (some (istage.2.prompt.getD []))
          (istage.2.execution_mode.getD (lit "parallel"))
          (if st.last_responses.isEmpty then none
            else some (format_responses_for_context st.last_responses))
          st.last_responses st.last_responses st.last_rankings ht
        else st.last_responses := by
  simp only [runStage]
  by_cases hA : resolve_stage_kind istage.2 istage.1 = lit "rankings"
  · have hnr : ¬ isResponsesBranch istage.1 istage.2 := fun h => h.1 hA
    rw [if_pos hA, if_neg hnr]
  · by_cases hB : resolve_stage_kind istage.2 istage.1 = lit "synthesis"
    · have hnr : ¬ isResponsesBranch istage.1 istage.2 := fun h => h.2 hB
      rw [if_neg hA, if_pos hB, if_neg hnr]
    · have hbr : isResponsesBranch istage.1 istage.2 := ⟨hA, hB⟩
      rw [if_neg hA, if_neg hB, if_pos hbr]

lemma eff_members_ne_nil (stage : StageCfg) (members : List Member)
    (hm : members ≠ []) :
    (if (resolve_stage_members stage members).isEmpty then members
     else resolve_stage_members stage members) ≠ [] := by
  by_cases h : (resolve_stage_members stage members).isEmpty
  · simpa [h] using hm
  · simp only [h, Bool.false_eq_true, if_false]
    intro he
    rw [he] at h
    exact h rfl

lemma foldl_last_responses_empty_members (q : Oracle) (settings : Settings)
    (uq : Str) (ht : Option Str) (hm : settings.members = []) :
    ∀ (stages : List (Nat × StageCfg)) (st : RunState),
      st.last_responses = [] →
      (stages.foldl (runStage q settings uq ht) st).last_responses = [] := by
  intro stages
  induction stages with
  | nil => intro st h; exact h
  | cons istage rest ih =>
    intro st h
    simp only [List.foldl_cons]
    apply ih
    rw [runStage_last_responses]
    by_cases hbr : isResponsesBranch istage.1 istage.2
    · rw [if_pos hbr]
      have hres : resolve_stage_members istage.2 settings.members = [] := by
        simp [resolve_stage_members, hm]
      have heff : (if (resolve_stage_members istage.2 settings.members).isEmpty
          then settings.members
          else resolve_stage_members istage.2 settings.members) = [] := by
        rw [hres, hm]
        simp
      rw [heff]
      have := collect_stage_responses_length q [] uq
        (some (istage.2.prompt.getD []))
        (istage.2.execution_mode.getD (lit "parallel"))
        (if st.last_responses.isEmpty then none
          else some (format_responses_for_context st.last_responses))
        st.last_responses st.last_responses st.last_rankings ht
      exact List.length_eq_zero.mp (by simpa using this)
    · rw [if_neg hbr]
      exact h

lemma foldl_last_responses_iff (q : Oracle) (settings : Settings) (uq : Str)
    (ht : Option Str) (hm : settings.members ≠ []) :
    ∀ (stages : List (Nat × StageCfg)) (st : RunState),
      ((stages.foldl (runStage q settings uq ht) st).last_responses = []
        ↔ (st.last_responses = [] ∧ ∀ istage ∈ stages, ¬ isResponsesBranch istage.1 istage.2)) := by
  intro stages
  induction stages with
  | nil => intro st; simp
  | cons istage rest ih =>
    intro st
    simp only [List.foldl_cons, List.mem_cons]
    rw [ih]
    by_cases hbr : isResponsesBranch istage.1 istage.2
    · have hne : (runStage q settings uq ht st istage).last_responses ≠ [] := by
        rw [runStage_last_responses, if_pos hbr]
        intro hnil
        have hlen := collect_stage_responses_length q
          (if (resolve_stage_members istage.2 settings.members).isEmpty
            then settings.members
            else resolve_stage_members istage.2 settings.members)
          uq (some (istage.2.prompt.getD []))
          (istage.2.execution_mode.getD (lit "parallel"))
          (if st.last_responses.isEmpty then none
            else some (format_responses_for_context st.last_responses))
          st.last_responses st.last_responses st.last_rankings ht
        rw [hnil] at hlen
        exact eff_members_ne_nil istage.2 settings.members hm
          (List.length_eq_zero.mp hlen.symm)
      constructor
      · intro ⟨h1, _⟩
        exact absurd h1 hne
      · intro ⟨_, h2⟩
        exact absurd hbr (h2 istage (Or.inl rfl))
    · rw [runStage_last_responses, if_neg hbr]
      constructor
      · intro ⟨h1, h2⟩
        refine ⟨h1, ?_⟩
        intro istage' h'
        rcases h' with h' | h'
        · subst h'; exact hbr
        · exact h2 istage' h'
      · intro ⟨h1, h2⟩
        exact ⟨h1, fun istage' h' => h2 istage' (Or.inr h')⟩

lemma stages_config_of_ne_nil (settings : Settings) : stages_config_of settings ≠ [] := by
  unfold stages_config_of
  cases hs : settings.stages with
  | none => simp [build_default_stages]
  | some st =>
    by_cases he : st.isEmpty
    · simp [he, build_default_stages]
    · simp only [he, Bool.false_eq_true, if_false]
      intro hnil
      rw [hnil] at he
      exact he rfl

/-- Oracle on which every invocation fails. -/
def failOracle : Oracle := fun _ _ => none

/-- Concrete two-stage configuration (responses then synthesis) with one
member, used for the all-failed run. -/
def exampleFailSettings : Settings :=
  { members := [{ id := lit "m1", aliasName := some (lit "A"), model_id := lit "mod1" }],
    chairman_id := some (lit "m1"),
    stages := some
      [{ id := some (lit "s1"), name := some (lit "Responses"),
         kind := some (lit "responses"), prompt := some (lit "P1"),
         execution_mode := some (lit "parallel"), member_ids := [lit "m1"] },
       { id := some (lit "s2"), name := some (lit "Synthesis"),
         kind := some (lit "synthesis"), prompt := some (lit "P2"),
         execution_mode := some (lit "sequential"), member_ids := [lit "m1"] }] }

/-- C7 counterexample: a run in which the only responses stage fails for
every member ("no responses stage ever produced output") still ends
without the synthetic terminal stage — the code appends it only when the
final responses-results list is empty, and an all-failed stage leaves a
non-empty list of failed entries. -/
theorem C7_counterexample :
    ((run_full_council failOracle exampleFailSettings (lit "q") none).1.map
        StageEntry.id) = [lit "s1", lit "s2"] ∧
    ((run_full_council failOracle exampleFailSettings (lit "q") none).1.map
        StageEntry.kind) = [lit "responses", lit "synthesis"] ∧
    ((run_final_state failOracle exampleFailSettings (lit "q") none).last_responses.map
        ResultEntry.status) = [lit "failed"] ∧
    (((run_full_council failOracle exampleFailSettings (lit "q") none).1.map
        StageEntry.id).contains (lit "stage-error")) = false := by
  refine ⟨by decide, by decide, by decide, by decide⟩

/-- C7 (amended): the pipeline is total (failures are data) — every
configured stage contributes exactly one entry and the run's output is
the stage list with, exactly when the final responses-results list is
empty, one synthetic terminal synthesis stage appended; with at least
one member configured, that list is empty iff no stage takes the
responses branch, so an all-failed responses stage (whose failed
entries keep the rolling context non-empty) never triggers the
synthetic stage, as the concrete all-failed run shows. -/
theorem C7_pipeline_amended :
    (∀ (q : Oracle) (settings : Settings) (uq : Str)
        (convs : Option (List ConvMsg)),
      stages_config_of settings ≠ [] ∧
      ((run_final_state q settings uq convs).output).length
        = (stages_config_of settings).length ∧
      ((run_full_council q settings uq convs).1.length
          = (stages_config_of settings).length + 1
        ↔ (run_final_state q settings uq convs).last_responses = []) ∧
      ((run_full_council q settings uq convs).1.length
          = (stages_config_of settings).length
        ∨ (run_full_council q settings uq convs).1.length
          = (stages_config_of settings).length + 1) ∧
      (settings.members ≠ [] →
        ((run_final_state q settings uq convs).last_responses = []
          ↔ ∀ istage ∈ (stages_config_of settings).enum,
              ¬ isResponsesBranch istage.1 istage.2)) ∧
      (settings.members = [] →
        (run_final_state q settings uq convs).last_responses = []) ∧
      ((run_final_state q settings uq convs).last_responses = [] →
        run_full_council q settings uq convs
          = ((run_final_state q settings uq convs).output
              ++ [errorStage (run_final_state q settings uq convs).output.length],
             (run_final_state q settings uq convs).metadata))) ∧
    ((run_final_state failOracle exampleFailSettings (lit "q") none).last_responses
        ≠ [] ∧
      (run_full_council failOracle exampleFailSettings (lit "q") none).1.length = 2) := by
  constructor
  · intro q settings uq convs
    have hcfg := stages_config_of_ne_nil settings
    have hlen : ((run_final_state q settings uq convs).output).length
        = (stages_config_of settings).length := by
      unfold run_final_state
      rw [foldl_output_length]
      simp [List.enum_length]
    have houtne : ¬ (run_final_state q settings uq convs).output.isEmpty = true := by
      intro he
      have : (run_final_state q settings uq convs).output = [] :=
        List.isEmpty_iff.mp he
      rw [this] at hlen
      exact hcfg (List.length_eq_zero.mp hlen.symm)
    have houtB : (run_final_state q settings uq convs).output.isEmpty = false := by
      cases h : (run_final_state q settings uq convs).output.isEmpty
      · rfl
      · exact absurd h houtne
    refine ⟨hcfg, hlen, ?_, ?_, ?_, ?_, ?_⟩
    · unfold run_full_council
      cases hl : (run_final_state q settings uq convs).last_responses.isEmpty with
      | false =>
        have hl' : ¬ (run_final_state q settings uq convs).last_responses = [] := by
          intro he
          rw [he] at hl
          simp at hl
        simp only [houtB, Bool.false_eq_true, if_false, hl]
        constructor
        · intro hx
          simp only [List.length_append] at hx
          exfalso
          omega
        · intro hx
          exact absurd hx hl'
      | true =>
        have hl' : (run_final_state q settings uq convs).last_responses = [] :=
          List.isEmpty_iff.mp hl
        simp only [houtB, Bool.false_eq_true, if_false, hl, if_true]
        simp [hl', hlen]
    · unfold run_full_council
      cases hl : (run_final_state q settings uq convs).last_responses.isEmpty with
      | false =>
        left
        simp [houtB, hl, hlen]
      | true =>
        right
        simp [houtB, hl, hlen]
    · intro hm
      unfold run_final_state
      rw [foldl_last_responses_iff q settings uq (history_text_of convs) hm]
      simp
    · intro hm
      unfold run_final_state
      exact foldl_last_responses_empty_members q settings uq
        (history_text_of convs) hm _ {} rfl
    · intro hl
      have hlB : (run_final_state q settings uq convs).last_responses.isEmpty = true := by
        simp [hl]
      unfold run_full_council
      simp only [houtB, Bool.false_eq_true, if_false, hlB, if_true]
  · constructor
    · decide
    · decide

/-- C7 witness: the members-nonempty characterization applied to the
concrete all-failed configuration. -/
theorem C7_pipeline_amended_witness :
    ((run_final_state failOracle exampleFailSettings (lit "q") none).last_responses = []
      ↔ ∀ istage ∈ (stages_config_of exampleFailSettings).enum,
          ¬ isResponsesBranch istage.1 istage.2) :=
  (C7_pipeline_amended.1 failOracle exampleFailSettings (lit "q") none).2.2.2.2.1
    (by decide)

/-- Normalized context entry of `_collect_context_entries`. -/
structure CtxEntry where
  role : Str
  source : Str
  content : Str
deriving DecidableEq

/-- Python `a or b or ""` over two optional strings. -/
def firstTruthy (a b : Option Str) : Str :=
  match a with
  | some x =>
    if ¬ x.isEmpty then x
    else
      match b with
      | some y => if ¬ y.isEmpty then y else []
      | none => []
  | none =>
    match b with
    | some y => if ¬ y.isEmpty then y else []
    | none => []

/-- Embedding of `council._collect_context_entries` (note: the default
`message_type` here is "speaker", unlike "council" in
`_format_conversation_history`). -/
def collect_context_entries (conversation_messages : List ConvMsg)
    (council_assistant_mode : Str) : List CtxEntry :=
  conversation_messages.filterMap (fun msg =>
    if msg.role = lit "user" then
      let content := stripWS (msg.content.getD [])
      if content.isEmpty then none
      else some ⟨lit "user", lit "user", content⟩
    else if msg.role ≠ lit "assistant" then none
    else if msg.message_type.getD (lit "speaker") = lit "speaker" then
      let content := stripWS (firstTruthy msg.response msg.speaker_response)
      if content.isEmpty then none
      else some ⟨lit "assistant", lit "speaker", content⟩
    else if msg.message_type.getD (lit "speaker") ≠ lit "council" then none
    else if council_assistant_mode = lit "skip" then none
    else if council_assistant_mode = lit "placeholder" then
      some ⟨lit "assistant", lit "council", lit "[Council Analysis - see above]"⟩
    else
      let content := stripWS
        (match get_final_response (msg.stages.getD []) with
         | some fr => fr.response
         | none => [])
      if content.isEmpty then none
      else some ⟨lit "assistant", lit "council", content⟩)

/-- Predicate selecting a full-pipeline (council) assistant message. -/
def is_council_msg (msg : ConvMsg) : Bool :=
  msg.role == lit "assistant" && msg.message_type == some (lit "council")

/-- Per-stage text block of the full fidelity level. -/
def speakerStageText (stage : StageEntry) : Str :=
  let base := lit "=== " ++ stage.name ++ lit " ==="
  let withPrompt :=
    if stage.prompt.isEmpty then base
    else if 500 < stage.prompt.length then
      base ++ lit "\nPrompt: " ++ stage.prompt.take 500 ++ lit "..."
    else base ++ lit "\nPrompt: " ++ stage.prompt
  match stage.results with
  | .asList rs =>
    rs.foldl (fun acc r =>
      acc ++ lit "\n\n[" ++ r.model ++ lit "]:\n" ++ r.response) withPrompt
  | .asRankings rs =>
    rs.foldl (fun acc r =>
      acc ++ lit "\n\n[" ++ r.model ++ lit "]:\n" ++ r.ranking) withPrompt
  | .asDict r => withPrompt ++ lit "\n\n[" ++ r.model ++ lit "]:\n" ++ r.response
  | .missing => withPrompt

/-- Embedding of `council._build_speaker_context`: stage detail comes
only from the first council message found scanning oldest-first (the
settings argument is unused by the code as well). -/
def build_speaker_context (conversation_messages : List ConvMsg)
    (_settings : Settings) (context_level : Str) : Str :=
  match conversation_messages.find? is_council_msg with
  | none => []
  | some cr =>
    let context_parts : List Str :=
      if context_level = lit "minimal" then
        match get_final_response (cr.stages.getD []) with
        | some fr =>
          if fr.response.isEmpty then []
          else [lit "Council's Initial Analysis:\n" ++ fr.response]
        | none => []
      else if context_level = lit "standard" then
        (match get_final_response (cr.stages.getD []) with
         | some fr =>
           if fr.response.isEmpty then []
           else [lit "Council's Initial Analysis:\n" ++ fr.response]
         | none => []) ++
        (let user_queries :=
          (collect_context_entries conversation_messages (lit "skip")).filterMap
            (fun e => if e.source = lit "user" then some e.content else none)
         if user_queries.isEmpty then []
         else [lit "User Queries:\n" ++ List.intercalate (lit "\n---\n") user_queries])
      else if context_level = lit "full" then
        ((cr.stages.getD []).map speakerStageText) ++
        (let conv_history :=
          (collect_context_entries conversation_messages (lit "placeholder")).map
            (fun e =>
              if e.source = lit "user" then lit "User: " ++ e.content
              else if e.source = lit "speaker" then lit "Speaker: " ++ e.content
              else lit "Assistant: " ++ e.content)
         if conv_history.isEmpty then []
         else [lit "=== Conversation History ===\n"
                ++ List.intercalate (lit "\n\n") conv_history])
      else []
    List.intercalate (lit "\n\n") context_parts

lemma get_final_response_nonempty {stages : List StageEntry} {fr : SynthResult}
    (h : get_final_response stages = some fr) : fr.response ≠ [] := by
  unfold get_final_response at h
  obtain ⟨stage, _, hf⟩ := List.exists_of_findSome?_eq_some h
  cases hres : stage.results with
  | asDict r =>
    rw [hres] at hf
    by_cases hre : r.response.isEmpty
    · simp [hre] at hf
    · simp only [hre, Bool.false_eq_true, if_false, Option.some.injEq] at hf
      subst hf
      intro he
      rw [he] at hre
      exact hre rfl
  | asList rs => rw [hres] at hf; simp at hf
  | asRankings rs => rw [hres] at hf; simp at hf
  | missing => rw [hres] at hf; simp at hf

/-- C9: minimal-fidelity context uses only the first council message
found scanning oldest-first — empty when there is none, empty when that
message's stages hold no synthesis response, and otherwise exactly the
labeled final synthesis text of that first message; concretely, a
conversation whose only council message has no synthesis stage yields
the empty string. -/
theorem C9_minimal_context :
    (∀ (msgs : List ConvMsg) (settings : Settings),
      (msgs.find? is_council_msg = none →
        build_speaker_context msgs settings (lit "minimal") = []) ∧
      (∀ cr : ConvMsg, msgs.find? is_council_msg = some cr →
        (get_final_response (cr.stages.getD []) = none →
          build_speaker_context msgs settings (lit "minimal") = []) ∧
        (∀ fr : SynthResult, get_final_response (cr.stages.getD []) = some fr →
          build_speaker_context msgs settings (lit "minimal")
            = lit "Council's Initial Analysis:\n" ++ fr.response))) ∧
    build_speaker_context
      [{ role := lit "assistant", message_type := some (lit "council"),
         stages := some
           [{ index := 0, id := lit "stage-1", name := lit "Responses",
              prompt := [], execution_mode := lit "parallel",
              kind := lit "responses", typeName := lit "ai",
              results := StageResults.asList
                [{ model := lit "M", response := lit "r", status := lit "ok" }] }] }]
      {} (lit "minimal") = [] := by
  constructor
  · intro msgs settings
    constructor
    · intro hf
      unfold build_speaker_context
      rw [hf]
    · intro cr hf
      constructor
      · intro hg
        unfold build_speaker_context
        rw [hf]
        simp [hg, List.intercalate]
      · intro fr hg
        have hne : fr.response ≠ [] := get_final_response_nonempty hg
        have hie : fr.response.isEmpty = false := by
          cases hr : fr.response with
          | nil => exact absurd hr hne
          | cons a l => rfl
        unfold build_speaker_context
        rw [hf]
        simp [hg, hie, List.intercalate]
  · decide

/-- Concrete council message whose stages end in a synthesis result. -/
def exampleSynthMsg : ConvMsg :=
  { role := lit "assistant", message_type := some (lit "council"),
    stages := some
      [{ index := 0, id := lit "stage-2", name := lit "Synthesis",
         prompt := [], execution_mode := lit "sequential",
         kind := lit "synthesis", typeName := lit "ai",
         results := StageResults.asDict
           { model := lit "Chairman", response := lit "Final answer" } }] }

/-- C9 witness: the synthesis branch applied at a concrete one-message
conversation. -/
theorem C9_minimal_context_witness :
    build_speaker_context [exampleSynthMsg] {} (lit "minimal")
      = lit "Council's Initial Analysis:\n" ++ lit "Final answer" :=
  ((C9_minimal_context.1 [exampleSynthMsg] {}).2 exampleSynthMsg (by decide)).2
    { model := lit "Chairman", response := lit "Final answer" } (by decide)

/- ====================================================================
   C8: settings validation (`main._validate_council_settings`) and
   settings normalization (`council_settings.ensure_stage_config`,
   `council_settings.regenerate_settings_ids`).
   ==================================================================== -/

/-- `council_settings.MAX_COUNCIL_MEMBERS`. -/
def MAX_COUNCIL_MEMBERS : Nat := 64

/-- `council_settings.MAX_COUNCIL_STAGES`. -/
def MAX_COUNCIL_STAGES : Nat := 10

/-- `council_settings.MAX_STAGE_MEMBERS`. -/
def MAX_STAGE_MEMBERS : Nat := 6

/-- `main.MAX_SYSTEM_PROMPT_CHARS`. -/
def MAX_SYSTEM_PROMPT_CHARS : Nat := 4000

/-- Keys of `config.SPEAKER_CONTEXT_LEVELS`. -/
def SPEAKER_CONTEXT_LEVELS : List Str :=
  [lit "minimal", lit "standard", lit "full"]

/-- Python `str()` of an integer. -/
def intToStr (n : Int) : Str :=
  if n < 0 then '-' :: natToStr (-n).toNat else natToStr n.toNat

/-- `main.CouncilMemberConfig` (pydantic model); the Python field
`alias` is named `aliasStr` here. -/
structure MemberCfg where
  id : Str
  aliasStr : Str
  model_id : Str
  system_prompt : Option Str := some []
  max_output_tokens : Int
deriving DecidableEq

/-- `main.CouncilStageConfig` (pydantic model). -/
structure StageCfgP where
  id : Str
  name : Str
  kind : Option Str := none
  prompt : Option Str := some []
  execution_mode : Str := lit "parallel"
  member_ids : List Str
deriving DecidableEq

/-- `main.CouncilSettingsRequest`, restricted to the fields read by
`_validate_council_settings`. -/
structure Payload where
  members : List MemberCfg
  chairman_id : Option Str := none
  title_model_id : Str
  speaker_context_level : Str := lit "full"
  stages : Option (List StageCfgP) := none
deriving DecidableEq

/-- A pydantic member dump in the dict shape read by
`build_default_stages` (which only reads `id`). -/
def memberCfgDump (m : MemberCfg) : Member :=
  { id := m.id, aliasName := some m.aliasStr, model_id := m.model_id,
    system_prompt := m.system_prompt.getD [], max_output_tokens := none }

/-- A default stage dict viewed through the `stage["..."]`/`stage.get`
accesses of `_validate_council_settings` (default stages have every
key present). -/
def stageCfgAsPayload (s : StageCfg) : StageCfgP :=
  { id := s.id.getD [], name := s.name.getD [], kind := s.kind,
    prompt := s.prompt, execution_mode := s.execution_mode.getD (lit "parallel"),
    member_ids := s.member_ids }

/-- The stage list checked by `_validate_council_settings`
(main.py lines 1044-1052): the payload's stages when truthy, else
`build_default_stages` over the member dumps. -/
def effectiveStages (payload : Payload) : List StageCfgP :=
  let defaults :=
    (build_default_stages (payload.members.map memberCfgDump) payload.chairman_id).map
      stageCfgAsPayload
  match payload.stages with
  | some st => if st.isEmpty then defaults else st
  | none => defaults

/-- The member loop of `_validate_council_settings` (lines 1025-1040):
first error wins (`break`).  `allowed` stands for the Converse model
ids of the region and `MAXTOK` for `MAX_MEMBER_MAX_OUTPUT_TOKENS`,
both defined outside `src/`. -/
def firstMemberError (allowed : List Str) (MAXTOK : Int) :
    List MemberCfg → Option Str
  | [] => none
  | m :: rest =>
    if m.model_id ∉ allowed then
      some (lit "Unsupported model for region: " ++ m.model_id)
    else if m.max_output_tokens < 1 ∨ MAXTOK < m.max_output_tokens then
      some (lit "max_output_tokens for " ++ m.aliasStr
        ++ lit " must be between 1 and " ++ intToStr MAXTOK ++ lit ".")
    else if MAX_SYSTEM_PROMPT_CHARS < (m.system_prompt.getD []).length then
      some (lit "System prompt too long for " ++ m.aliasStr ++ lit ".")
    else firstMemberError allowed MAXTOK rest

/-- `[i for i, stage in enumerate(stages) if stage.get("kind") ==
"synthesis"]` (pydantic stage dicts), with a starting offset. -/
def synthIndexesP : Nat → List StageCfgP → List Nat
  | _, [] => []
  | i, s :: rest =>
    if s.kind = some (lit "synthesis") then i :: synthIndexesP (i + 1) rest
    else synthIndexesP (i + 1) rest

/-- The stage loop of `_validate_council_settings` (lines 1060-1085):
collects synthesis indexes and stops at the first error (`break`); a
synthesis stage's index is recorded before its member-count check. -/
def stageLoopVal (ids : List Str) : Nat → List StageCfgP → List Nat × Option Str
  | _, [] => ([], none)
  | idx, s :: rest =>
    let stage_name := stripWS s.name
    let kindInvalid : Bool :=
      match s.kind with
      | some k => !k.isEmpty &&
          !(k == lit "responses" || k == lit "rankings" || k == lit "synthesis")
      | none => false
    if stage_name.isEmpty then ([], some (lit "Stage names cannot be empty."))
    else if kindInvalid then
      ([], some (lit "Stage '" ++ stage_name ++ lit "' has invalid kind."))
    else if s.member_ids.isEmpty then
      ([], some (lit "Stage '" ++ stage_name ++ lit "' must include at least one member."))
    else if MAX_STAGE_MEMBERS < s.member_ids.length then
      ([], some (lit "Stage '" ++ stage_name ++ lit "' exceeds max members ("
        ++ natToStr MAX_STAGE_MEMBERS ++ lit ")."))
    else if ¬ (∀ mid ∈ s.member_ids, mid ∈ ids) then
      ([], some (lit "Stage '" ++ stage_name ++ lit "' references unknown members."))
    else if s.kind = some (lit "synthesis") then
      if s.member_ids.length ≠ 1 then
        ([idx], some (lit "Synthesis stage must include exactly one member (chairman)."))
      else
        let r := stageLoopVal ids (idx + 1) rest
        (idx :: r.1, r.2)
    else stageLoopVal ids (idx + 1) rest

/-- Embedding of `main._validate_council_settings` (lines 1006-1097).
`allowed`/`MAXTOK` are the region model ids and
`MAX_MEMBER_MAX_OUTPUT_TOKENS`, defined outside `src/`. -/
def validate_council_settings (allowed : List Str) (MAXTOK : Int)
    (payload : Payload) : List Str :=
  let members := payload.members
  let e1 := if members.isEmpty then
      [lit "At least one council member is required."] else []
  let e2 := if MAX_COUNCIL_MEMBERS < members.length then
      [lit "Maximum " ++ natToStr MAX_COUNCIL_MEMBERS ++ lit " council members allowed."]
    else []
  let ids := members.map MemberCfg.id
  let aliases := members.map (fun m => stripWS m.aliasStr)
  let e3 := if ¬ ids.Nodup then [lit "Member IDs must be unique."] else []
  let e4 := if ∃ a ∈ aliases, a = [] then
      [lit "Member aliases cannot be empty."] else []
  let e5 := (firstMemberError allowed MAXTOK members).toList
  let e6 := if payload.title_model_id ∉ allowed then
      [lit "Unsupported title model for region: " ++ payload.title_model_id] else []
  let e7 := if payload.speaker_context_level ∉ SPEAKER_CONTEXT_LEVELS then
      [lit "Invalid chairman context level."] else []
  let stages := effectiveStages payload
  let e8 := if MAX_COUNCIL_STAGES < stages.length then
      [lit "Maximum " ++ natToStr MAX_COUNCIL_STAGES ++ lit " stages allowed."] else []
  let stage_ids := stages.map StageCfgP.id
  let e9 := if ¬ stage_ids.Nodup then [lit "Stage IDs must be unique."] else []
  let lp := stageLoopVal ids 0 stages
  let e10 := lp.2.toList
  let e11 :=
    if lp.1.isEmpty then
      match stages with
      | [] => [lit "At least one stage is required."]
      | _ :: _ =>
        if ((stages.getLast?.map (fun s => s.member_ids.length)).getD 0) ≠ 1 then
          [lit "Final stage must include exactly one member (chairman)."]
        else []
    else
      if 1 < lp.1.length then [lit "Only one synthesis stage is allowed."]
      else if lp.1.headD 0 ≠ stages.length - 1 then
        [lit "Synthesis stage must be the final stage."]
      else []
  e1 ++ e2 ++ e3 ++ e4 ++ e5 ++ e6 ++ e7 ++ e8 ++ e9 ++ e10 ++ e11

/-- Number of synthesis-kind stages in a pydantic stage list. -/
def countSynthP (l : List StageCfgP) : Nat :=
  (l.filter (fun s => s.kind == some (lit "synthesis"))).length

/-- Python `a or b` on optional strings (`None` and `""` falsy). -/
def pyOrOpt (a b : Option Str) : Option Str :=
  match a with
  | some x => if x.isEmpty then b else some x
  | none => b

/-- Python `a or d` with a plain-string default. -/
def pyOrD (a : Option Str) (d : Str) : Str :=
  match a with
  | some x => if x.isEmpty then d else x
  | none => d

/-- Python truthiness of an optional string. -/
def optTruthy (a : Option Str) : Bool :=
  match a with
  | some x => !x.isEmpty
  | none => false

/-- Python `str.lower()` (ASCII model, as elsewhere in this file). -/
def lowerStr (s : Str) : Str := s.map Char.toLower

/-- Python `int()` of a digit-only string. -/
def digitsToNat (s : Str) : Nat :=
  s.foldl (fun acc c => 10 * acc + (c.toNat - '0'.toNat)) 0

/-- Positional fallback of `_kind_for_stage`
(council_settings.py lines 285-290). -/
def positional_kind (stagesLen index : Nat) : Str :=
  if index = stagesLen - 1 then lit "synthesis"
  else if index = 1 then lit "rankings"
  else lit "responses"

/-- Embedding of `_kind_for_stage` inside `ensure_stage_config`
(lines 260-290): explicit kind if valid, else name keywords, else a
`stage-N` id suffix, else positional; it is called after the loop has
already defaulted the stage's `id` and `name`. -/
def kind_for_stage (stagesLen : Nat) (stage : StageCfg) (index : Nat) : Str :=
  let kind := stage.kind.getD []
  if kind = lit "responses" ∨ kind = lit "rankings" ∨ kind = lit "synthesis" then kind
  else
    let stage_name := lowerStr (stripWS (stage.name.getD []))
    if containsSub (lit "synthesis") stage_name then lit "synthesis"
    else if containsSub (lit "ranking") stage_name then lit "rankings"
    else if containsSub (lit "response") stage_name then lit "responses"
    else
      let stage_id := lowerStr (stripWS (stage.id.getD []))
      if (lit "stage-").isPrefixOf stage_id then
        let suffix := stage_id.drop 6
        if ¬ suffix.isEmpty ∧ suffix.all isDigit09 then
          let stage_number := digitsToNat suffix
          if stage_number = 2 then lit "rankings"
          else if stage_number = 3 then lit "synthesis"
          else if stage_number = 1 then lit "responses"
          else positional_kind stagesLen index
        else positional_kind stagesLen index
      else positional_kind stagesLen index

/-- One iteration of the normalization loop of `ensure_stage_config`
(lines 292-307): default `id`/`name`, resolve `kind` on the updated
stage, canonicalize `execution_mode`, drop unknown member ids, hydrate
default prompts; synthesis stages are forced sequential. -/
def normalize_stage (member_ids : List Str) (stagesLen : Nat) (index : Nat)
    (stage : StageCfg) : StageCfg :=
  let id0 := pyOrD stage.id (lit "stage-" ++ natToStr (index + 1))
  let name0 := pyOrD stage.name (lit "Stage " ++ natToStr (index + 1))
  let stage1 : StageCfg := { stage with id := some id0, name := some name0 }
  let kind0 := kind_for_stage stagesLen stage1 index
  let mode0 := if stage.execution_mode = some (lit "sequential") then lit "sequential"
    else lit "parallel"
  let mids0 := stage.member_ids.filter (fun mid => member_ids.contains mid)
  let prompt0 := if kind0 = lit "rankings" ∧ optTruthy stage.prompt = false then
      some DEFAULT_STAGE2_PROMPT
    else stage.prompt
  let mode1 := if kind0 = lit "synthesis" then lit "sequential" else mode0
  let prompt1 := if kind0 = lit "synthesis" ∧ optTruthy prompt0 = false then
      some DEFAULT_STAGE3_PROMPT
    else prompt0
  { stage1 with
      kind := some kind0,
      prompt := prompt1,
      execution_mode := some mode1,
      member_ids := mids0 }

/-- The normalization loop over `enumerate(stages)`. -/
def normalizeStages (member_ids : List Str) (stagesLen : Nat) :
    Nat → List StageCfg → List StageCfg
  | _, [] => []
  | index, s :: rest =>
    normalize_stage member_ids stagesLen index s ::
      normalizeStages member_ids stagesLen (index + 1) rest

/-- `[i for i, stage in enumerate(stages) if stage.get("kind") ==
"synthesis"]` on stage dicts, with a starting offset. -/
def synthIndexes : Nat → List StageCfg → List Nat
  | _, [] => []
  | i, s :: rest =>
    if s.kind = some (lit "synthesis") then i :: synthIndexes (i + 1) rest
    else synthIndexes (i + 1) rest

/-- `for idx in synthesis_indexes[:-1]: stages[idx]["kind"] =
"responses"` (lines 324-325): the synthesis indexes are increasing
with last element `sidx`, so the demoted ones are exactly the
synthesis stages strictly before position `sidx`. -/
def demoteSynthBefore (sidx : Nat) : Nat → List StageCfg → List StageCfg
  | _, [] => []
  | i, s :: rest =>
    (if i < sidx ∧ s.kind = some (lit "synthesis") then
        { s with kind := some (lit "responses") }
      else s) :: demoteSynthBefore sidx (i + 1) rest

/-- `stages.pop(i)`: remaining list and popped element. -/
def popAt : Nat → List StageCfg → List StageCfg × Option StageCfg
  | _, [] => ([], none)
  | 0, s :: rest => (rest, some s)
  | n + 1, s :: rest =>
    let r := popAt n rest
    (s :: r.1, r.2)

/-- The synthesis stage appended when none exists (lines 312-319). -/
def appendedSynth (stagesLen : Nat) (chairman_id : Option Str) : StageCfg :=
  { id := some (lit "stage-" ++ natToStr (stagesLen + 1)),
    name := some (lit "Final Synthesis"),
    kind := some (lit "synthesis"), prompt := some DEFAULT_STAGE3_PROMPT,
    execution_mode := some (lit "sequential"),
    member_ids :=
      match chairman_id with
      | some c => if c.isEmpty then [] else [c]
      | none => [] }

/-- Lines 311-328 of `ensure_stage_config`: append a synthesis stage
when none exists, else demote all but the last synthesis stage and
move that one to the end. -/
def canonicalizeSynth (chairman_id : Option Str) (normalized : List StageCfg) :
    List StageCfg :=
  let idxs := synthIndexes 0 normalized
  if idxs.isEmpty then
    normalized ++ [appendedSynth normalized.length chairman_id]
  else
    let sidx := idxs.getLastD 0
    let pr := popAt sidx (demoteSynthBefore sidx 0 normalized)
    pr.1 ++ pr.2.toList

/-- Lines 330-334: the synthesis stage's member-id fixup (chairman
fallback when empty, truncation to the first id when several). -/
def fixSynthMembers (chairman_id : Option Str) (mids0 : List Str) : List Str :=
  let mids1 := if mids0.isEmpty then
      (match chairman_id with
       | some c => if c.isEmpty then [] else [c]
       | none => [])
    else mids0
  if 1 < mids1.length then [mids1.headD []] else mids1

/-- The inner member-explosion loop of `regenerate_settings_ids`
(lines 117-139), threading the uuid counter (`fresh` supplies the
`uuid.uuid4()` draws in order) and pinning the chairman to the first
occurrence; returns (counter, exploded members, stage member ids, new
chairman). -/
def regenMemberLoop (fresh : Nat → Str) (findSrc : Str → Option Member)
    (origChairman : Option Str) :
    List Str → Nat → Option Str → Nat × List Member × List Str × Option Str
  | [], counter, newch => (counter, [], [], newch)
  | mid :: rest, counter, newch =>
    match findSrc mid with
    | some src =>
      let nid := fresh counter
      let nc := if origChairman = some mid ∧ newch = none then some nid else newch
      let r := regenMemberLoop fresh findSrc origChairman rest (counter + 1) nc
      (r.1, { src with id := nid } :: r.2.1, nid :: r.2.2.1, r.2.2.2)
    | none => regenMemberLoop fresh findSrc origChairman rest counter newch

/-- The stage loop of `regenerate_settings_ids` (lines 112-140). -/
def regenStageLoop (fresh : Nat → Str) (findSrc : Str → Option Member)
    (origChairman : Option Str) :
    List StageCfg → Nat → Option Str → Nat × List Member × List StageCfg × Option Str
  | [], counter, newch => (counter, [], [], newch)
  | stage :: rest, counter, newch =>
    let sid := fresh counter
    let m := regenMemberLoop fresh findSrc origChairman stage.member_ids (counter + 1) newch
    let r := regenStageLoop fresh findSrc origChairman rest m.1 m.2.2.2
    (r.1, m.2.1 ++ r.2.1,
     { stage with id := some sid, member_ids := m.2.2.1 } :: r.2.2.1,
     r.2.2.2)

/-- Embedding of `council_settings.regenerate_settings_ids`
(lines 95-160); `fresh` supplies the `uuid.uuid4()` draws in order,
`source_members` last-wins dict lookup is `reverse.find?`. -/
def regenerate_settings_ids (fresh : Nat → Str) (settings : Settings) : Settings :=
  let findSrc := fun (mid : Str) =>
    settings.members.reverse.find? (fun m => m.id == mid)
  let origChairman := settings.chairman_id
  let lp :=
    match settings.stages with
    | some stages => regenStageLoop fresh findSrc origChairman stages 0 none
    | none => (0, [], [], none)
  let members0 := lp.2.1
  let newStages : Option (List StageCfg) :=
    match settings.stages with
    | some _ => some lp.2.2.1
    | none => none
  let newch0 := lp.2.2.2
  let fb : List Member × Option Str :=
    match origChairman with
    | some c =>
      if ¬ c.isEmpty ∧ newch0 = none then
        match findSrc c with
        | some src => (members0 ++ [{ src with id := fresh lp.1 }], some (fresh lp.1))
        | none => (members0, newch0)
      else (members0, newch0)
    | none => (members0, newch0)
  let chairman :=
    if optTruthy fb.2 then fb.2
    else
      match fb.1 with
      | m :: _ => some m.id
      | [] => settings.chairman_id
  { settings with members := fb.1, stages := newStages, chairman_id := chairman }

/-- The truthy-stages branch of `ensure_stage_config`
(lines 255-343). -/
def ensureWithStages (settings : Settings) (stages0 : List StageCfg) : Settings :=
  let member_ids := (settings.members.map Member.id).filter (fun i => !i.isEmpty)
  let chairman_id := pyOrOpt settings.chairman_id member_ids.head?
  let normalized := normalizeStages member_ids stages0.length 0 stages0
  let stages3 := canonicalizeSynth chairman_id normalized
  let syn := stages3.getLastD {}
  let mids2 := fixSynthMembers chairman_id syn.member_ids
  let syn2 := { syn with member_ids := mids2 }
  let chairman2 :=
    if ¬ mids2.isEmpty then some (mids2.headD [])
    else
      match chairman_id with
      | some c => if c.isEmpty then settings.chairman_id else some c
      | none => settings.chairman_id
  { settings with
      stages := some (stages3.dropLast ++ [syn2]),
      chairman_id := chairman2 }

/-- Embedding of `council_settings.ensure_stage_config`
(lines 254-348); `fresh` supplies the uuid draws of the
default-stages path. -/
def ensure_stage_config (fresh : Nat → Str) (settings : Settings) : Settings :=
  match settings.stages with
  | some stages0 =>
    if stages0.isEmpty then
      regenerate_settings_ids fresh
        { settings with
            stages := some (build_default_stages settings.members settings.chairman_id) }
    else ensureWithStages settings stages0
  | none =>
    regenerate_settings_ids fresh
      { settings with
          stages := some (build_default_stages settings.members settings.chairman_id) }

/-- Number of synthesis-kind stages in a stage-dict list. -/
def countSynth (l : List StageCfg) : Nat :=
  (l.filter (fun s => s.kind == some (lit "synthesis"))).length

/-- A guarded singleton equal to `[]` has a false guard. -/
lemma ite_singleton_nil {α : Type} {C : Prop} [Decidable C] {x : α}
    (h : (if C then [x] else []) = ([] : List α)) : ¬C := by
  by_cases hc : C
  · rw [if_pos hc] at h
    exact absurd h (by simp)
  · exact hc

/-- `getLastD` of a non-empty list ignores the default. -/
lemma getLastD_of_ne_nil {α : Type} (l : List α) (h : l ≠ []) (d d' : α) :
    l.getLastD d = l.getLastD d' := by
  cases l with
  | nil => exact absurd rfl h
  | cons a t => rw [List.getLastD_cons d a t, List.getLastD_cons d' a t]

/-- `getLastD` of a non-empty list is a member. -/
lemma getLastD_mem {α : Type} (l : List α) (h : l ≠ []) (d : α) :
    l.getLastD d ∈ l := by
  induction l generalizing d with
  | nil => exact absurd rfl h
  | cons a t ih =>
    rw [List.getLastD_cons d a t]
    rcases eq_or_ne t [] with ht | ht
    · subst ht
      exact List.mem_singleton.mpr rfl
    · exact List.mem_cons_of_mem a (ih ht a)

/-- The synthesis-index list has one index per synthesis-kind stage. -/
lemma synthIndexesP_length (stages : List StageCfgP) : ∀ i : Nat,
    (synthIndexesP i stages).length = countSynthP stages := by
  induction stages with
  | nil => intro i; rfl
  | cons s rest ih =>
    intro i
    by_cases hk : s.kind = some (lit "synthesis")
    · simp [synthIndexesP, countSynthP, List.filter_cons, hk]
      exact ih (i + 1)
    · simp only [synthIndexesP, if_neg hk, countSynthP, List.filter_cons]
      rw [show (s.kind == some (lit "synthesis")) = false from
        beq_eq_false_iff_ne.mpr hk]
      exact ih (i + 1)

/-- If the last synthesis index points at the last position, the last
stage is synthesis-kind. -/
lemma synthIndexesP_last_synth (stages : List StageCfgP) : ∀ i : Nat,
    synthIndexesP i stages ≠ [] →
    (synthIndexesP i stages).getLastD 0 = i + stages.length - 1 →
    ∃ lastStage, stages.getLast? = some lastStage ∧
      lastStage.kind = some (lit "synthesis") := by
  induction stages with
  | nil => intro i h _; exact absurd rfl h
  | cons s rest ih =>
    intro i hne hlast
    by_cases hk : s.kind = some (lit "synthesis")
    · have hidxs : synthIndexesP i (s :: rest) = i :: synthIndexesP (i + 1) rest := by
        simp [synthIndexesP, hk]
      rcases eq_or_ne (synthIndexesP (i + 1) rest) [] with hin | hin
      · rw [hidxs, hin] at hlast
        have h1 : ([i] : List Nat).getLastD 0 = i := rfl
        rw [h1] at hlast
        simp only [List.length_cons] at hlast
        have hr : rest = [] := List.eq_nil_of_length_eq_zero (by omega)
        subst hr
        exact ⟨s, rfl, hk⟩
      · rw [hidxs, List.getLastD_cons 0 i _, getLastD_of_ne_nil _ hin i 0] at hlast
        simp only [List.length_cons] at hlast
        have hlast' : (synthIndexesP (i + 1) rest).getLastD 0
            = (i + 1) + rest.length - 1 := by omega
        obtain ⟨lastStage, hL, hK⟩ := ih (i + 1) hin hlast'
        have hrne : rest ≠ [] := by
          intro hr; subst hr; exact hin rfl
        refine ⟨lastStage, ?_, hK⟩
        cases rest with
        | nil => exact absurd rfl hrne
        | cons b t => rw [List.getLast?_cons_cons]; exact hL
    · have hidxs : synthIndexesP i (s :: rest) = synthIndexesP (i + 1) rest := by
        simp [synthIndexesP, hk]
      rw [hidxs] at hne hlast
      simp only [List.length_cons] at hlast
      have hlast' : (synthIndexesP (i + 1) rest).getLastD 0
          = (i + 1) + rest.length - 1 := by omega
      obtain ⟨lastStage, hL, hK⟩ := ih (i + 1) hne hlast'
      have hrne : rest ≠ [] := by
        intro hr; subst hr; exact hne rfl
      refine ⟨lastStage, ?_, hK⟩
      cases rest with
      | nil => exact absurd rfl hrne
      | cons b t => rw [List.getLast?_cons_cons]; exact hL

/-- When the validation stage loop finishes without error, its index
list is the synthesis-index list and every synthesis stage it saw has
exactly one member id. -/
lemma stageLoopVal_spec (ids : List Str) (stages : List StageCfgP) : ∀ idx : Nat,
    (stageLoopVal ids idx stages).2 = none →
    (stageLoopVal ids idx stages).1 = synthIndexesP idx stages ∧
      ∀ s ∈ stages, s.kind = some (lit "synthesis") → s.member_ids.length = 1 := by
  induction stages with
  | nil => intro idx _; exact ⟨rfl, by simp⟩
  | cons s rest ih =>
    intro idx h
    simp only [stageLoopVal] at h ⊢
    split_ifs at h ⊢ with h1 h2 h3 h4 h5 h6 h7
    · replace h : (stageLoopVal ids (idx + 1) rest).2 = none := h
      obtain ⟨ih1, ih2⟩ := ih (idx + 1) h
      constructor
      · show idx :: (stageLoopVal ids (idx + 1) rest).1 = _
        rw [ih1]
        simp [synthIndexesP, h6]
      · intro t ht hk
        rcases List.mem_cons.mp ht with rfl | ht
        · omega
        · exact ih2 t ht hk
    · replace h : (stageLoopVal ids (idx + 1) rest).2 = none := h
      obtain ⟨ih1, ih2⟩ := ih (idx + 1) h
      constructor
      · show (stageLoopVal ids (idx + 1) rest).1 = _
        rw [ih1]
        simp [synthIndexesP, h6]
      · intro t ht hk
        rcases List.mem_cons.mp ht with rfl | ht
        · exact absurd hk h6
        · exact ih2 t ht hk

/-- An empty synthesis-index list means no synthesis-kind stage. -/
lemma synthIndexes_nil (l : List StageCfg) : ∀ i : Nat,
    synthIndexes i l = [] → ∀ s ∈ l, s.kind ≠ some (lit "synthesis") := by
  induction l with
  | nil => intro i _ s hs; simp at hs
  | cons a rest ih =>
    intro i h s hs
    by_cases hk : a.kind = some (lit "synthesis")
    · rw [show synthIndexes i (a :: rest) = i :: synthIndexes (i + 1) rest from by
        simp [synthIndexes, hk]] at h
      simp at h
    · rcases List.mem_cons.mp hs with rfl | hs
      · exact hk
      · refine ih (i + 1) ?_ s hs
        rw [show synthIndexes i (a :: rest) = synthIndexes (i + 1) rest from by
          simp [synthIndexes, hk]] at h
        exact h

/-- Synthesis indexes are at least the starting offset. -/
lemma synthIndexes_ge (l : List StageCfg) : ∀ i j : Nat,
    j ∈ synthIndexes i l → i ≤ j := by
  induction l with
  | nil => intro i j hj; simp [synthIndexes] at hj
  | cons a rest ih =>
    intro i j hj
    by_cases hk : a.kind = some (lit "synthesis")
    · rw [show synthIndexes i (a :: rest) = i :: synthIndexes (i + 1) rest from by
        simp [synthIndexes, hk]] at hj
      rcases List.mem_cons.mp hj with rfl | hj
      · exact le_refl j
      · have := ih (i + 1) j hj; omega
    · rw [show synthIndexes i (a :: rest) = synthIndexes (i + 1) rest from by
        simp [synthIndexes, hk]] at hj
      have := ih (i + 1) j hj; omega

/-- Demotion does not change the list length. -/
lemma demote_length (sidx : Nat) (l : List StageCfg) : ∀ i : Nat,
    (demoteSynthBefore sidx i l).length = l.length := by
  induction l with
  | nil => intro i; rfl
  | cons a rest ih =>
    intro i
    simp only [demoteSynthBefore, List.length_cons, ih (i + 1)]

/-- Demotion preserves non-synthesis-ness pointwise. -/
lemma demote_nonsynth (sidx : Nat) (l : List StageCfg) : ∀ i : Nat,
    (∀ s ∈ l, s.kind ≠ some (lit "synthesis")) →
    ∀ t ∈ demoteSynthBefore sidx i l, t.kind ≠ some (lit "synthesis") := by
  induction l with
  | nil => intro i _ t ht; simp [demoteSynthBefore] at ht
  | cons a rest ih =>
    intro i hl t ht
    simp only [demoteSynthBefore] at ht
    rcases List.mem_cons.mp ht with rfl | ht
    · split
      · intro hc
        have hkind : ({ a with kind := some (lit "responses") } : StageCfg).kind
            = some (lit "responses") := rfl
        rw [hkind] at hc
        exact absurd (Option.some.inj hc) (by decide)
      · exact hl a (List.mem_cons_self a rest)
    · exact ih (i + 1) (fun s hs => hl s (List.mem_cons_of_mem a hs)) t ht

/-- `popAt` splits the length between remainder and popped element. -/
lemma popAt_length (l : List StageCfg) : ∀ n : Nat,
    (popAt n l).1.length + (popAt n l).2.toList.length = l.length := by
  induction l with
  | nil => intro n; cases n <;> rfl
  | cons s rest ih =>
    intro n
    cases n with
    | zero => simp [popAt, Option.toList]
    | succ m =>
      have := ih m
      simp only [popAt, List.length_cons]
      simp only [List.length_cons] at this ⊢
      omega

/-- Popping at the last synthesis index (after demoting the earlier
synthesis stages) yields a synthesis stage, and the remainder holds no
synthesis stage. -/
lemma demote_pop_spec (sidx : Nat) (l : List StageCfg) : ∀ i : Nat,
    synthIndexes i l ≠ [] →
    (synthIndexes i l).getLastD 0 = sidx →
    (∃ s, (popAt (sidx - i) (demoteSynthBefore sidx i l)).2 = some s ∧
        s.kind = some (lit "synthesis")) ∧
      ∀ t ∈ (popAt (sidx - i) (demoteSynthBefore sidx i l)).1,
        t.kind ≠ some (lit "synthesis") := by
  induction l with
  | nil => intro i h _; exact absurd rfl h
  | cons a rest ih =>
    intro i hne hlast
    by_cases hk : a.kind = some (lit "synthesis")
    · have hidxs : synthIndexes i (a :: rest) = i :: synthIndexes (i + 1) rest := by
        simp [synthIndexes, hk]
      rcases eq_or_ne (synthIndexes (i + 1) rest) [] with hin | hin
      · rw [hidxs, hin] at hlast
        have hsidx : i = sidx := by simpa using hlast
        subst hsidx
        simp only [Nat.sub_self, demoteSynthBefore]
        rw [if_neg (by simp : ¬(i < i ∧ a.kind = some (lit "synthesis")))]
        simp only [popAt]
        exact ⟨⟨a, rfl, hk⟩,
          demote_nonsynth i rest (i + 1) (synthIndexes_nil rest (i + 1) hin)⟩
      · have hlast' : (synthIndexes (i + 1) rest).getLastD 0 = sidx := by
          rw [hidxs, List.getLastD_cons 0 i _, getLastD_of_ne_nil _ hin i 0] at hlast
          exact hlast
        have hge : i + 1 ≤ sidx := by
          have hmem : sidx ∈ synthIndexes (i + 1) rest := by
            rw [← hlast']
            exact getLastD_mem _ hin 0
          exact synthIndexes_ge rest (i + 1) sidx hmem
        obtain ⟨⟨s, hpop, hskind⟩, hrem⟩ := ih (i + 1) hin hlast'
        simp only [demoteSynthBefore]
        rw [if_pos ⟨by omega, hk⟩]
        rw [show sidx - i = (sidx - (i + 1)) + 1 from by omega]
        simp only [popAt]
        refine ⟨⟨s, hpop, hskind⟩, ?_⟩
        intro t ht
        rcases List.mem_cons.mp ht with rfl | ht
        · intro hc
          have hkind : ({ a with kind := some (lit "responses") } : StageCfg).kind
              = some (lit "responses") := rfl
          rw [hkind] at hc
          exact absurd (Option.some.inj hc) (by decide)
        · exact hrem t ht
    · have hidxs : synthIndexes i (a :: rest) = synthIndexes (i + 1) rest := by
        simp [synthIndexes, hk]
      rw [hidxs] at hne hlast
      have hge : i + 1 ≤ sidx := by
        have hmem : sidx ∈ synthIndexes (i + 1) rest := by
          rw [← hlast]
          exact getLastD_mem _ hne 0
        exact synthIndexes_ge rest (i + 1) sidx hmem
      obtain ⟨⟨s, hpop, hskind⟩, hrem⟩ := ih (i + 1) hne hlast
      simp only [demoteSynthBefore]
      rw [if_neg (fun hc => hk hc.2)]
      rw [show sidx - i = (sidx - (i + 1)) + 1 from by omega]
      simp only [popAt]
      refine ⟨⟨s, hpop, hskind⟩, ?_⟩
      intro t ht
      rcases List.mem_cons.mp ht with rfl | ht
      · exact hk
      · exact hrem t ht

/-- A list of non-synthesis stages followed by one synthesis stage has
synthesis count one. -/
lemma countSynth_concat {l : List StageCfg} {s : StageCfg}
    (hl : ∀ t ∈ l, t.kind ≠ some (lit "synthesis"))
    (hs : s.kind = some (lit "synthesis")) :
    countSynth (l ++ [s]) = 1 := by
  have h1 : l.filter (fun t => t.kind == some (lit "synthesis")) = [] :=
    List.filter_eq_nil_iff.mpr (fun t ht => by
      simp only [beq_iff_eq]
      exact hl t ht)
  have h2 : [s].filter (fun t => t.kind == some (lit "synthesis")) = [s] := by
    simp [List.filter, hs]
  show ((l ++ [s]).filter (fun t => t.kind == some (lit "synthesis"))).length = 1
  rw [List.filter_append, h1, h2]
  rfl

/-- The fixed-up synthesis member-id list never has more than one id. -/
lemma fixSynthMembers_le (ch : Option Str) (mids0 : List Str) :
    (fixSynthMembers ch mids0).length ≤ 1 := by
  have key : ∀ m1 : List Str,
      ((if 1 < m1.length then [m1.headD []] else m1) : List Str).length ≤ 1 := by
    intro m1
    split_ifs with h
    · simp
    · omega
  exact key _

/-- Normalization does not change the stage count. -/
lemma normalizeStages_length (member_ids : List Str) (n : Nat) (l : List StageCfg) :
    ∀ i : Nat, (normalizeStages member_ids n i l).length = l.length := by
  induction l with
  | nil => intro i; rfl
  | cons a rest ih =>
    intro i
    simp only [normalizeStages, List.length_cons, ih (i + 1)]

/-- `canonicalizeSynth` always ends the list with one synthesis stage
after a synthesis-free prefix, adding at most one stage. -/
lemma canonicalizeSynth_spec (ch : Option Str) (l : List StageCfg) :
    ∃ l' s, canonicalizeSynth ch l = l' ++ [s] ∧
      (∀ t ∈ l', t.kind ≠ some (lit "synthesis")) ∧
      s.kind = some (lit "synthesis") ∧
      (canonicalizeSynth ch l).length ≤ l.length + 1 := by
  by_cases hidx : (synthIndexes 0 l).isEmpty
  · have hcan : canonicalizeSynth ch l = l ++ [appendedSynth l.length ch] := by
      simp [canonicalizeSynth, hidx]
    refine ⟨l, appendedSynth l.length ch, hcan,
      synthIndexes_nil l 0 (List.isEmpty_iff.mp hidx), rfl, ?_⟩
    rw [hcan]
    simp
  · have hne' : synthIndexes 0 l ≠ [] := by
      intro hc
      rw [hc] at hidx
      exact hidx rfl
    obtain ⟨⟨s, hpop, hskind⟩, hrem⟩ :=
      demote_pop_spec ((synthIndexes 0 l).getLastD 0) l 0 hne' rfl
    rw [Nat.sub_zero] at hpop hrem
    have hcan : canonicalizeSynth ch l
        = (popAt ((synthIndexes 0 l).getLastD 0)
            (demoteSynthBefore ((synthIndexes 0 l).getLastD 0) 0 l)).1 ++ [s] := by
      simp only [canonicalizeSynth]
      rw [if_neg (by simp [hidx])]
      rw [hpop]
      rfl
    refine ⟨_, s, hcan, hrem, hskind, ?_⟩
    rw [hcan]
    have hlen := popAt_length (demoteSynthBefore ((synthIndexes 0 l).getLastD 0) 0 l)
      ((synthIndexes 0 l).getLastD 0)
    rw [hpop] at hlen
    rw [demote_length] at hlen
    simp only [List.length_append, List.length_cons, List.length_nil]
    simp only [Option.toList, List.length_cons, List.length_nil] at hlen
    omega

/-- Spec of the truthy-stages branch of `ensure_stage_config`. -/
lemma ensureWithStages_spec (settings : Settings) (stages0 : List StageCfg) :
    ∃ l, (ensureWithStages settings stages0).stages = some l ∧
      countSynth l = 1 ∧
      (∃ lastStage, l.getLast? = some lastStage ∧
        lastStage.kind = some (lit "synthesis") ∧
        lastStage.member_ids.length ≤ 1) ∧
      l.length ≤ stages0.length + 1 := by
  obtain ⟨l', s, hcan, hl', hskind, hlen⟩ :=
    canonicalizeSynth_spec
      (pyOrOpt settings.chairman_id
        (((settings.members.map Member.id).filter (fun i => !i.isEmpty)).head?))
      (normalizeStages ((settings.members.map Member.id).filter (fun i => !i.isEmpty))
        stages0.length 0 stages0)
  have hout : (ensureWithStages settings stages0).stages
      = some ((canonicalizeSynth
          (pyOrOpt settings.chairman_id
            (((settings.members.map Member.id).filter (fun i => !i.isEmpty)).head?))
          (normalizeStages ((settings.members.map Member.id).filter (fun i => !i.isEmpty))
            stages0.length 0 stages0)).dropLast
        ++ [{ (canonicalizeSynth
              (pyOrOpt settings.chairman_id
                (((settings.members.map Member.id).filter (fun i => !i.isEmpty)).head?))
              (normalizeStages ((settings.members.map Member.id).filter (fun i => !i.isEmpty))
                stages0.length 0 stages0)).getLastD {} with
            member_ids := fixSynthMembers
              (pyOrOpt settings.chairman_id
                (((settings.members.map Member.id).filter (fun i => !i.isEmpty)).head?))
              ((canonicalizeSynth
                (pyOrOpt settings.chairman_id
                  (((settings.members.map Member.id).filter (fun i => !i.isEmpty)).head?))
                (normalizeStages ((settings.members.map Member.id).filter (fun i => !i.isEmpty))
                  stages0.length 0 stages0)).getLastD {}).member_ids }]) := rfl
  rw [hcan] at hout
  rw [List.dropLast_concat, List.getLastD_concat] at hout
  refine ⟨_, hout, ?_, ?_, ?_⟩
  · exact countSynth_concat hl' (by exact hskind)
  · refine ⟨_, List.getLast?_concat _, ?_, ?_⟩
    · exact hskind
    · exact fixSynthMembers_le _ _
  · have h1 : (l' ++ [s]).length ≤ stages0.length + 1 := by
      rw [← hcan]
      rw [normalizeStages_length] at hlen
      exact hlen
    simp only [List.length_append, List.length_cons, List.length_nil] at h1 ⊢
    omega

/-- The exploded member-id list of a stage is no longer than its
input (unknown references are skipped). -/
lemma regenMemberLoop_le (fresh : Nat → Str) (fs : Str → Option Member)
    (oc : Option Str) (mids : List Str) : ∀ (counter : Nat) (newch : Option Str),
    ((regenMemberLoop fresh fs oc mids counter newch).2.2.1).length ≤ mids.length := by
  induction mids with
  | nil => intro c n; simp [regenMemberLoop]
  | cons m rest ih =>
    intro c n
    simp only [regenMemberLoop]
    cases hfs : fs m with
    | some src =>
      exact Nat.succ_le_succ (ih (c + 1)
        (if oc = some m ∧ n = none then some (fresh c) else n))
    | none =>
      exact le_trans (ih c n) (Nat.le_succ _)

/-- `regenStageLoop` keeps each stage's kind and never grows its
member-id list. -/
lemma regenStageLoop_forall (fresh : Nat → Str) (fs : Str → Option Member)
    (oc : Option Str) (stages : List StageCfg) :
    ∀ (counter : Nat) (newch : Option Str),
      List.Forall₂
        (fun a b => b.kind = a.kind ∧ b.member_ids.length ≤ a.member_ids.length)
        stages ((regenStageLoop fresh fs oc stages counter newch).2.2.1) := by
  induction stages with
  | nil => intro c n; simp [regenStageLoop]
  | cons st rest ih =>
    intro c n
    simp only [regenStageLoop]
    exact List.Forall₂.cons
      ⟨rfl, regenMemberLoop_le fresh fs oc st.member_ids (c + 1) n⟩ (ih _ _)

/-- `Forall₂` transports the last element. -/
lemma forall₂_getLast {α β : Type} {R : α → β → Prop} :
    ∀ (l₁ : List α) (l₂ : List β), List.Forall₂ R l₁ l₂ →
      ∀ a : α, l₁.getLast? = some a →
        ∃ b, l₂.getLast? = some b ∧ R a b := by
  intro l₁
  induction l₁ with
  | nil => intro l₂ _ a ha; simp at ha
  | cons x xs ih =>
    intro l₂ h a ha
    cases h
    rename_i y ys hR hT
    cases xs with
    | nil =>
      cases hT
      have hax : x = a := by simpa using ha
      subst hax
      exact ⟨y, rfl, hR⟩
    | cons x' xs' =>
      rw [List.getLast?_cons_cons] at ha
      cases hT
      rename_i y' ys' hR' hT'
      obtain ⟨b, hb, hRb⟩ := ih (y' :: ys') (List.Forall₂.cons hR' hT') a ha
      refine ⟨b, ?_, hRb⟩
      rw [List.getLast?_cons_cons]
      exact hb

/-- Kind-preserving pointwise relations preserve the synthesis count. -/
lemma countSynth_forall₂ : ∀ {l₁ l₂ : List StageCfg},
    List.Forall₂
      (fun a b => b.kind = a.kind ∧ b.member_ids.length ≤ a.member_ids.length)
      l₁ l₂ →
    countSynth l₂ = countSynth l₁ := by
  intro l₁ l₂ h
  induction h with
  | nil => rfl
  | cons hR _ ih =>
    rename_i a b l₁' l₂' _
    have ihl : (l₂'.filter (fun t => t.kind == some (lit "synthesis"))).length
        = (l₁'.filter (fun t => t.kind == some (lit "synthesis"))).length := ih
    show ((b :: l₂').filter (fun t => t.kind == some (lit "synthesis"))).length
      = ((a :: l₁').filter (fun t => t.kind == some (lit "synthesis"))).length
    simp only [List.filter_cons, hR.1]
    cases hcond : (a.kind == some (lit "synthesis"))
    · simpa using ihl
    · simpa using ihl

/-- Regenerating ids over the default stages keeps three stages whose
last is the synthesis stage with at most one member id. -/
lemma regen_default_spec (fresh : Nat → Str) (s : Settings) (ms : List Member)
    (ch : Option Str) (h : s.stages = some (build_default_stages ms ch)) :
    ∃ l, (regenerate_settings_ids fresh s).stages = some l ∧
      countSynth l = 1 ∧
      (∃ lastStage, l.getLast? = some lastStage ∧
        lastStage.kind = some (lit "synthesis") ∧
        lastStage.member_ids.length ≤ 1) ∧
      l.length = 3 := by
  have hout : (regenerate_settings_ids fresh s).stages
      = some ((regenStageLoop fresh
          (fun mid => s.members.reverse.find? (fun m => m.id == mid))
          s.chairman_id (build_default_stages ms ch) 0 none).2.2.1) := by
    simp only [regenerate_settings_ids]
    rw [h]
  have hF := regenStageLoop_forall fresh
    (fun mid => s.members.reverse.find? (fun m => m.id == mid)) s.chairman_id
    (build_default_stages ms ch) 0 none
  refine ⟨_, hout, ?_, ?_, ?_⟩
  · rw [countSynth_forall₂ hF]
    rfl
  · have hbd : ∃ s3, (build_default_stages ms ch).getLast? = some s3 ∧
        s3.kind = some (lit "synthesis") ∧ s3.member_ids.length ≤ 1 := by
      refine ⟨_, rfl, rfl, ?_⟩
      split <;> simp
    obtain ⟨s3, hs3, hk3, hm3⟩ := hbd
    obtain ⟨b, hb, hRb⟩ := forall₂_getLast _ _ hF s3 hs3
    exact ⟨b, hb, by rw [hRb.1, hk3], le_trans hRb.2 hm3⟩
  · have hlen := hF.length_eq
    rw [← hlen]
    rfl

/-- C8 (amended): a stage configuration accepted by
`_validate_council_settings` has at most `MAX_COUNCIL_STAGES` stages
and at most one synthesis-kind stage; when there is one it is the last
stage and has exactly one member id, and when there is none the last
stage has exactly one member id (the backward-compatible fallback).
`ensure_stage_config` always outputs exactly one synthesis-kind stage,
as the last stage, with at most one member id, and at most
`max (input + 1) 3` stages — the 10-stage bound is not enforced by
normalization. -/
theorem C8_stage_invariant_amended :
    (∀ (allowed : List Str) (MAXTOK : Int) (payload : Payload),
      validate_council_settings allowed MAXTOK payload = [] →
      effectiveStages payload ≠ [] ∧
      (effectiveStages payload).length ≤ MAX_COUNCIL_STAGES ∧
      countSynthP (effectiveStages payload) ≤ 1 ∧
      (countSynthP (effectiveStages payload) = 1 →
        ∃ lastStage, (effectiveStages payload).getLast? = some lastStage ∧
          lastStage.kind = some (lit "synthesis") ∧
          lastStage.member_ids.length = 1) ∧
      (countSynthP (effectiveStages payload) = 0 →
        ∃ lastStage, (effectiveStages payload).getLast? = some lastStage ∧
          lastStage.member_ids.length = 1)) ∧
    (∀ (fresh : Nat → Str) (settings : Settings),
      ∃ l, (ensure_stage_config fresh settings).stages = some l ∧
        countSynth l = 1 ∧
        (∃ lastStage, l.getLast? = some lastStage ∧
          lastStage.kind = some (lit "synthesis") ∧
          lastStage.member_ids.length ≤ 1) ∧
        l.length ≤ max ((settings.stages.getD []).length + 1) 3) := by
  constructor
  · intro allowed MAXTOK payload h
    simp only [validate_council_settings, List.append_eq_nil] at h
    obtain ⟨⟨⟨⟨⟨⟨⟨⟨⟨⟨h1, h2⟩, h3⟩, h4⟩, h5⟩, h6⟩, h7⟩, h8⟩, h9⟩, h10⟩, h11⟩ := h
    set St := effectiveStages payload with hSt
    have hbound : St.length ≤ MAX_COUNCIL_STAGES := by
      have := ite_singleton_nil h8
      omega
    have hloop : (stageLoopVal (payload.members.map MemberCfg.id) 0 St).2 = none := by
      cases hx : (stageLoopVal (payload.members.map MemberCfg.id) 0 St).2 with
      | none => rfl
      | some e => rw [hx] at h10; simp at h10
    obtain ⟨hidx, hmem1⟩ :=
      stageLoopVal_spec (payload.members.map MemberCfg.id) St 0 hloop
    have hne : St ≠ [] := by
      intro hnil
      rw [hnil] at h11
      simp [stageLoopVal] at h11
    have hcount : countSynthP St
        = (stageLoopVal (payload.members.map MemberCfg.id) 0 St).1.length := by
      rw [hidx, synthIndexesP_length]
    refine ⟨hne, hbound, ?_, ?_, ?_⟩
    · by_cases hEm : (stageLoopVal (payload.members.map MemberCfg.id) 0 St).1.isEmpty = true
      · rw [hcount]
        rw [List.isEmpty_iff.mp hEm]
        simp
      · rw [if_neg hEm] at h11
        have hle : ¬ 1 < (stageLoopVal (payload.members.map MemberCfg.id) 0 St).1.length := by
          by_cases hq : 1 < (stageLoopVal (payload.members.map MemberCfg.id) 0 St).1.length
          · rw [if_pos hq] at h11; simp at h11
          · exact hq
        rw [hcount]
        omega
    · intro hc
      have hlp1 : (stageLoopVal (payload.members.map MemberCfg.id) 0 St).1.length = 1 := by
        rw [← hcount]; exact hc
      obtain ⟨j, hj⟩ := List.length_eq_one.mp hlp1
      have hEm : ¬ ((stageLoopVal (payload.members.map MemberCfg.id) 0 St).1.isEmpty = true) := by
        rw [hj]; simp
      rw [if_neg hEm] at h11
      have hle : ¬ 1 < (stageLoopVal (payload.members.map MemberCfg.id) 0 St).1.length := by
        omega
      rw [if_neg hle] at h11
      have hhead : (stageLoopVal (payload.members.map MemberCfg.id) 0 St).1.headD 0
          = St.length - 1 := not_ne_iff.mp (ite_singleton_nil h11)
      rw [hj] at hhead
      simp only [List.headD_cons] at hhead
      have hidxs_ne : synthIndexesP 0 St ≠ [] := by
        rw [← hidx, hj]; simp
      have hgl : (synthIndexesP 0 St).getLastD 0 = 0 + St.length - 1 := by
        rw [← hidx, hj]
        simp only [List.getLastD_cons, List.getLastD_nil]
        omega
      obtain ⟨lastStage, hL, hK⟩ := synthIndexesP_last_synth St 0 hidxs_ne hgl
      exact ⟨lastStage, hL, hK, hmem1 lastStage (List.mem_of_mem_getLast? hL) hK⟩
    · intro hc
      have hlp1 : (stageLoopVal (payload.members.map MemberCfg.id) 0 St).1 = [] := by
        have := hcount
        rw [hc] at this
        exact List.eq_nil_of_length_eq_zero this.symm
      have hEm : (stageLoopVal (payload.members.map MemberCfg.id) 0 St).1.isEmpty = true := by
        rw [hlp1]; rfl
      rw [if_pos hEm] at h11
      cases hS' : St with
      | nil => exact absurd hS' hne
      | cons s0 rest =>
        rw [hS'] at h11
        have hone : (((s0 :: rest).getLast?.map (fun s => s.member_ids.length)).getD 0)
            = 1 := not_ne_iff.mp (ite_singleton_nil h11)
        cases hL : (s0 :: rest).getLast? with
        | none =>
          rw [List.getLast?_eq_none_iff] at hL
          simp at hL
        | some lastStage =>
          rw [hL] at hone
          simp at hone
          exact ⟨lastStage, rfl, hone⟩
  · intro fresh settings
    rcases hst : settings.stages with _ | stages0
    · have hout : ensure_stage_config fresh settings
          = regenerate_settings_ids fresh
              { settings with
                  stages := some (build_default_stages settings.members settings.chairman_id) } := by
        unfold ensure_stage_config
        rw [hst]
      obtain ⟨l, hl, hc, hlast, hlen⟩ :=
        regen_default_spec fresh
          { settings with
              stages := some (build_default_stages settings.members settings.chairman_id) }
          settings.members settings.chairman_id rfl
      refine ⟨l, by rw [hout]; exact hl, hc, hlast, ?_⟩
      rw [hlen]
      exact le_max_right _ _
    · cases stages0 with
      | nil =>
        have hout : ensure_stage_config fresh settings
            = regenerate_settings_ids fresh
                { settings with
                    stages := some (build_default_stages settings.members settings.chairman_id) } := by
          unfold ensure_stage_config
          rw [hst]
          rfl
        obtain ⟨l, hl, hc, hlast, hlen⟩ :=
          regen_default_spec fresh
            { settings with
                stages := some (build_default_stages settings.members settings.chairman_id) }
            settings.members settings.chairman_id rfl
        refine ⟨l, by rw [hout]; exact hl, hc, hlast, ?_⟩
        rw [hlen]
        exact le_max_right _ _
      | cons s0 rest =>
        have hout : ensure_stage_config fresh settings
            = ensureWithStages settings (s0 :: rest) := by
          unfold ensure_stage_config
          rw [hst]
          rfl
        obtain ⟨l, hl, hc, hlast, hlen⟩ := ensureWithStages_spec settings (s0 :: rest)
        refine ⟨l, by rw [hout]; exact hl, hc, hlast, ?_⟩
        simp only [Option.getD_some]
        exact le_trans hlen (le_max_left _ _)

/-- A fresh-id supply for concrete normalization runs. -/
def exampleFresh : Nat → Str := fun n => lit "id-" ++ natToStr n

/-- A valid payload whose two stages are both responses-kind (no
synthesis stage), with the last stage holding one member. -/
def payloadNoSynth : Payload :=
  { members := [{ id := lit "m1", aliasStr := lit "A", model_id := lit "mod",
                  system_prompt := some [], max_output_tokens := 100 }],
    chairman_id := some (lit "m1"),
    title_model_id := lit "tmod",
    speaker_context_level := lit "minimal",
    stages := some
      [{ id := lit "s1", name := lit "One", kind := some (lit "responses"),
         prompt := some [], member_ids := [lit "m1"] },
       { id := lit "s2", name := lit "Two", kind := some (lit "responses"),
         prompt := some [], member_ids := [lit "m1"] }] }

/-- A stored settings snapshot with ten responses-kind stages. -/
def settingsTenStages : Settings :=
  { members := [{ id := lit "m1", aliasName := some (lit "A"), model_id := lit "mod" }],
    chairman_id := some (lit "m1"),
    stages := some ((List.range 10).map (fun i =>
      { id := some (lit "t" ++ natToStr i), name := some (lit "Panel"),
        kind := some (lit "responses"), prompt := some [],
        execution_mode := some (lit "parallel"), member_ids := [lit "m1"] })) }

/-- A stored settings snapshot with no members and one responses
stage. -/
def settingsNoMembers : Settings :=
  { members := [],
    stages := some
      [{ id := some (lit "s1"), name := some (lit "Panel"),
         kind := some (lit "responses"), prompt := some [],
         execution_mode := some (lit "parallel"), member_ids := [] }] }

/-- C8 counterexample: (1) `_validate_council_settings` accepts a
configuration with zero synthesis-kind stages (the
backward-compatible final-stage fallback), refuting "exactly one
synthesis-kind stage" for accepted configurations; (2)
`ensure_stage_config` turns ten stages into eleven, exceeding
`MAX_COUNCIL_STAGES = 10`; (3) `ensure_stage_config` can leave the
synthesis stage with zero member ids, refuting "exactly one
member id". -/
theorem C8_counterexample :
    validate_council_settings [lit "mod", lit "tmod"] 64000 payloadNoSynth = [] ∧
    countSynthP (effectiveStages payloadNoSynth) = 0 ∧
    ((ensure_stage_config exampleFresh settingsTenStages).stages.getD []).length = 11 ∧
    (((ensure_stage_config exampleFresh settingsNoMembers).stages.getD []).getLast?.map
        (fun s => s.member_ids.length)) = some 0 := by
  decide

/-- A payload accepted by validation whose last stage is its only
synthesis-kind stage. -/
def payloadOk : Payload :=
  { members := [{ id := lit "m1", aliasStr := lit "A", model_id := lit "mod",
                  system_prompt := some [], max_output_tokens := 100 }],
    chairman_id := some (lit "m1"),
    title_model_id := lit "tmod",
    speaker_context_level := lit "full",
    stages := some
      [{ id := lit "s1", name := lit "One", kind := some (lit "responses"),
         prompt := some [], member_ids := [lit "m1"] },
       { id := lit "s2", name := lit "Two", kind := some (lit "synthesis"),
         prompt := some [], member_ids := [lit "m1"] }] }

/-- C8 witness: the amended theorem applied at concrete inputs, with
the validation hypothesis discharged by evaluation. -/
theorem C8_stage_invariant_amended_witness :
    (validate_council_settings [lit "mod", lit "tmod"] 64000 payloadOk = [] ∧
      (effectiveStages payloadOk).length ≤ MAX_COUNCIL_STAGES) ∧
    ∃ l, (ensure_stage_config exampleFresh settingsTenStages).stages = some l ∧
      countSynth l = 1 :=
  ⟨⟨by decide,
    (C8_stage_invariant_amended.1 [lit "mod", lit "tmod"] 64000 payloadOk
      (by decide)).2.1⟩,
   (C8_stage_invariant_amended.2 exampleFresh settingsTenStages).elim
     (fun l hl => ⟨l, hl.1, hl.2.1⟩)⟩
